import Mathlib

/-!
Shallow embedding of the extraction-and-classification pipeline of
`src/scraper.js` (class `JunkRemovalScraper`), together with theorems about
the pipeline.  The in-page extraction callback (`page.evaluate`) is modelled
over an explicit DOM tree; the Node-side methods (`groupRelatedContent`,
`determineSectionType`, `getParentContainer`, the section-assembly map and
`scrapeWebsite`'s try/catch shell) are modelled as pure functions.

Modelling conventions:
* DOM nodes are the inductive `DomNode` (element or text node); element
  identity is the path of child indices from the walker root (`document.body`).
* `innerText` is modelled as the visible descendant text pieces joined by a
  single space and `textContent` as their raw concatenation, both per the
  usual DOM semantics restricted to what the scraper observes.
* JavaScript's `String.prototype.toLowerCase` is modelled on ASCII letters,
  `Array.prototype.sort` as a stable insertion sort, and fallible browser
  steps (navigation, `page.evaluate`) as an explicit `PageRun` outcome.
-/

namespace JRS

/-! ### Characters and strings -/

/-- ASCII lower-casing of a character (model of `toLowerCase` per char). -/
def lowChar (c : Char) : Char :=
  if 'A' ≤ c ∧ c ≤ 'Z' then Char.ofNat (c.toNat + 32) else c

/-- Model of `String.prototype.toLowerCase` (ASCII). -/
def lowerStr (s : String) : String := ⟨s.data.map lowChar⟩

/-- Does `pat` occur at the very front of `s`? -/
def firstAt : List Char → List Char → Bool
  | [], _ => true
  | _ :: _, [] => false
  | a :: pr, b :: sr => a == b && firstAt pr sr

/-- Does `pat` occur somewhere inside `s`?  (Model of `String.includes`.) -/
def hasSub (pat : List Char) : List Char → Bool
  | [] => firstAt pat []
  | b :: sr => firstAt pat (b :: sr) || hasSub pat sr

/-- The predicate `strHas s pat` models `s.includes(pat)`. -/
def strHas (s pat : String) : Bool := hasSub pat.data s.data

/-- Whitespace characters recognised by the model of `String.trim` / `\s`. -/
def isWsCh (c : Char) : Bool := c == ' ' || c == '\t' || c == '\n' || c == '\r'

/-- Space or tab, the characters collapsed by `replace(/[ \t]+/g, ' ')`. -/
def isSpTabCh (c : Char) : Bool := c == ' ' || c == '\t'

/-- Collapse every run of spaces/tabs to a single space. -/
def collapseSp : List Char → List Char
  | [] => []
  | [c] => if isSpTabCh c then [' '] else [c]
  | a :: b :: r =>
    if isSpTabCh a && isSpTabCh b then collapseSp (b :: r)
    else (if isSpTabCh a then ' ' else a) :: collapseSp (b :: r)

/-- Trim leading and trailing whitespace (model of `String.prototype.trim`). -/
def trimWs (l : List Char) : List Char :=
  ((l.dropWhile fun c => isWsCh c).reverse.dropWhile fun c => isWsCh c).reverse

/-- Model of `String.prototype.trim` as a string function. -/
def jsTrim (s : String) : String := ⟨trimWs s.data⟩

/-- Model of the in-page helper `normalizeSpaces`: collapse space/tab runs to
one space, then trim. -/
def normalizeSpaces (s : String) : String := ⟨trimWs (collapseSp s.data)⟩

/-- Word counting state machine: `inw` records whether the previous character
was a non-whitespace character. -/
def wordsAux : Bool → List Char → Nat
  | _, [] => 0
  | inw, c :: r =>
    if isWsCh c then wordsAux false r
    else (if inw then 0 else 1) + wordsAux true r

/-- Model of the in-page helper `countWords`
(`text.split(/\s+/).filter(w => w.length > 0).length`). -/
def countWords (s : String) : Nat := wordsAux false s.data

/-- Model of `Array.prototype.join(' ')`. -/
def joinSp : List String → String
  | [] => ""
  | [s] => s
  | s :: r => s ++ " " ++ joinSp r

/-! ### The phone-number and quoted-span regular expressions -/

def isDigitCh (c : Char) : Bool := '0' ≤ c && c ≤ '9'

/-- JavaScript `\w` (ASCII word character). -/
def isWordCh (c : Char) : Bool :=
  isDigitCh c || ('a' ≤ c && c ≤ 'z') || ('A' ≤ c && c ≤ 'Z') || c == '_'

def take3d : List Char → Option (List Char)
  | a :: b :: c :: r =>
    if isDigitCh a && isDigitCh b && isDigitCh c then some r else none
  | _ => none

def take4d : List Char → Option (List Char)
  | a :: b :: c :: d :: r =>
    if isDigitCh a && isDigitCh b && isDigitCh c && isDigitCh d then some r else none
  | _ => none

/-- The continuations after an optional `[-.]` separator. -/
def sepBranches : List Char → List (List Char)
  | [] => [[]]
  | c :: r => if c == '-' || c == '.' then [r, c :: r] else [c :: r]

/-- Does `\d{3}[-.]?\d{3}[-.]?\d{4}\b` match starting exactly here? -/
def phoneHere (l : List Char) : Bool :=
  match take3d l with
  | none => false
  | some r1 =>
    (sepBranches r1).any fun r2 =>
      match take3d r2 with
      | none => false
      | some r3 =>
        (sepBranches r3).any fun r4 =>
          match take4d r4 with
          | none => false
          | some r5 =>
            match r5 with
            | [] => true
            | c :: _ => !isWordCh c

/-- Scan for `\b\d{3}[-.]?\d{3}[-.]?\d{4}\b`; `prevW` tracks whether the
previous character was a word character (for the leading `\b`). -/
def phoneScan : Bool → List Char → Bool
  | _, [] => false
  | prevW, c :: r => (!prevW && phoneHere (c :: r)) || phoneScan (isWordCh c) r

/-- Model of `text.match(/\b\d{3}[-.]?\d{3}[-.]?\d{4}\b/) !== null`. -/
def phoneMatch (s : String) : Bool := phoneScan false s.data

/-- Model of `text.match(/"[^"]{20,}"/) !== null`: two quotes enclosing at
least 20 non-quote characters. -/
def quotedSpan : List Char → Bool
  | [] => false
  | c :: r =>
    (c == '"' &&
      (let run := r.takeWhile fun d => !(d == '"')
       decide (20 ≤ run.length) && decide (run.length < r.length))) ||
    quotedSpan r

/-! ### The DOM model -/

/-- Page-absolute bounding box, the output shape of the in-page helper
`getElementPosition` (viewport rect plus scroll offsets, rounded). -/
structure Pos where
  top : Int
  left : Int
  bottom : Int
  right : Int
  width : Int
  height : Int
deriving Repr, DecidableEq, Inhabited

/-- Everything the scraper observes about one element: tag (canonical DOM
upper case), class tokens, id, ARIA role, the computed-style facts consulted
by `shouldSkipElement`, offset sizes, and its page-absolute box. -/
structure ElemInfo where
  tagName : String
  classes : List String
  idAttr : String
  roleAttr : String
  ariaHidden : Bool
  displayNone : Bool
  visibilityHidden : Bool
  opacityZero : Bool
  offsetWidth : Nat
  offsetHeight : Nat
  pos : Pos
deriving Repr, DecidableEq

/-- A rendered DOM node: an element with children, or a text node. -/
inductive DomNode where
  | elem (info : ElemInfo) (children : List DomNode)
  | text (s : String)
deriving Repr

/-- A node's identity: the list of child indices from the walker root. -/
abbrev Path := List Nat

mutual

def nodeSize : DomNode → Nat
  | .text _ => 1
  | .elem _ cs => 1 + nodesSize cs

def nodesSize : List DomNode → Nat
  | [] => 0
  | c :: cs => nodeSize c + nodesSize cs

end

/-- Look up the node at a path. -/
def getAt : DomNode → Path → Option DomNode
  | n, [] => some n
  | .elem _ cs, i :: r =>
    match cs[i]? with
    | some c => getAt c r
    | none => none
  | .text _, _ :: _ => none

/-- The string `classStrRaw e` models the class attribute of the element,
`Array.from(element.classList).join(" ")`. -/
def classStrRaw (e : ElemInfo) : String := joinSp e.classes

/-- Model of `element.textContent` restricted to the children: raw
concatenation of all descendant text. -/
def textContentL (cs : List DomNode) : String :=
  match cs with
  | [] => ""
  | c :: r => textContentChild c ++ textContentL r
where
  textContentChild : DomNode → String
    | .text s => s
    | .elem _ cs => textContentL cs

mutual

/-- The visible text pieces contributing to `innerText`: text under elements
styled `display:none` or `visibility:hidden` is omitted. -/
def innerPieces : DomNode → List String
  | .text s => [s]
  | .elem e cs => if e.displayNone || e.visibilityHidden then [] else innerPiecesL cs

def innerPiecesL : List DomNode → List String
  | [] => []
  | c :: r => innerPieces c ++ innerPiecesL r

end

/-- Model of `element.innerText`: visible pieces joined by a space. -/
def innerTextN (n : DomNode) : String := joinSp (innerPieces n)

/-- A path/element/children triple as produced by document-order scans. -/
abbrev PInfo := Path × ElemInfo × List DomNode

mutual

/-- All elements of the subtree rooted at `n` (which sits at path `p`),
in document (pre-)order, including `n` itself when it is an element. -/
def elemsUnder (p : Path) : DomNode → List PInfo
  | .text _ => []
  | .elem e cs => (p, e, cs) :: elemsUnderL p 0 cs

def elemsUnderL (p : Path) (i : Nat) : List DomNode → List PInfo
  | [] => []
  | c :: r => elemsUnder (p ++ [i]) c ++ elemsUnderL p (i + 1) r

end

/-- The element descendants of a node (excluding the node itself), i.e.
`element.querySelectorAll('*')` in document order. -/
def descElems (p : Path) (cs : List DomNode) : List PInfo := elemsUnderL p 0 cs

def isElemB : DomNode → Bool
  | .elem _ _ => true
  | .text _ => false

/-! ### Visibility and skip filter (`shouldSkipElement`) -/

/-- Model of the in-page helper `shouldSkipElement`. -/
def shouldSkip (e : ElemInfo) : Bool :=
  let tag := lowerStr e.tagName
  let classStr := lowerStr (classStrRaw e)
  let idStr := lowerStr e.idAttr
  let roleStr := lowerStr e.roleAttr
  (tag == "nav" || roleStr == "navigation" ||
    strHas classStr "nav" || strHas classStr "menu" ||
    strHas idStr "nav" || strHas idStr "menu") ||
  (tag == "input" || tag == "select" || tag == "textarea" || tag == "label" ||
    tag == "option" || tag == "fieldset" || tag == "legend") ||
  (tag == "script" || tag == "style" || tag == "noscript" || tag == "meta" ||
    tag == "link") ||
  (e.displayNone || e.visibilityHidden || e.opacityZero ||
    e.offsetWidth == 0 || e.offsetHeight == 0) ||
  e.ariaHidden

/-- A child that is an element and not skip-eligible (the children that make
their parent defer text ownership in `getExactVisibleText`). -/
def nonSkipElemChild : DomNode → Bool
  | .elem e _ => !shouldSkip e
  | .text _ => false

/-! ### Text extraction (`getExactVisibleText`) -/

/-- Is every child either a text node or a skip-eligible element?
(The `hasOnlyTextNodes` check of `getExactVisibleText`.) -/
def onlyTextOrSkip (cs : List DomNode) : Bool :=
  cs.all fun c =>
    match c with
    | .text _ => true
    | .elem e _ => shouldSkip e

/-- Model of the in-page helper `getExactVisibleText` on an element with
info `e` and children `cs`. -/
def getExactVisibleText (e : ElemInfo) (cs : List DomNode) : String :=
  if e.tagName == "BUTTON" || e.tagName == "A" then
    normalizeSpaces (textContentL cs)
  else if onlyTextOrSkip cs then
    normalizeSpaces (joinSp (innerPiecesL cs))
  else ""

/-- The regex `/^h[1-6]$/` on a lower-cased tag. -/
def isHeadingTag (tagLower : String) : Bool :=
  tagLower == "h1" || tagLower == "h2" || tagLower == "h3" ||
  tagLower == "h4" || tagLower == "h5" || tagLower == "h6"

/-! ### Button association (`findAssociatedButton`) -/

/-- The selector `'button, a.btn, a.button, [class*="btn"], [class*="button"]'`:
the `a.*` alternatives are subsumed by the attribute-substring alternatives. -/
def btnSel (e : ElemInfo) : Bool :=
  e.tagName == "BUTTON" || strHas (classStrRaw e) "btn" || strHas (classStrRaw e) "button"

/-- The sibling test: `tagName === 'BUTTON' ||
(tagName === 'A' && className.match(/btn|button/))`. -/
def sibBtn (e : ElemInfo) : Bool :=
  e.tagName == "BUTTON" ||
  (e.tagName == "A" && (strHas (classStrRaw e) "btn" || strHas (classStrRaw e) "button"))

def nodeOfPInfo (m : PInfo) : DomNode := .elem m.2.1 m.2.2

/-- Models `button.innerText || button.textContent` with empty-string fallback,
then `normalizeSpaces`. -/
def buttonTextOf (m : PInfo) : String :=
  let t := innerTextN (nodeOfPInfo m)
  let t2 := if t == "" then textContentL m.2.2 else t
  normalizeSpaces t2

/-- The parent element of the node at `p` (none at the walker root, whose
parent lies outside the modelled tree). -/
def parentOf (doc : DomNode) (p : Path) : Option PInfo :=
  match p with
  | [] => none
  | _ =>
    match getAt doc p.dropLast with
    | some (.elem e cs) => some (p.dropLast, e, cs)
    | _ => none

/-- The element children of a node at `pp` with children `cs`, with paths. -/
def elemChildrenFrom (pp : Path) (i : Nat) : List DomNode → List PInfo
  | [] => []
  | c :: r =>
    (match c with
     | .elem e cs => [(pp ++ [i], e, cs)]
     | .text _ => []) ++ elemChildrenFrom pp (i + 1) r

/-- The next element siblings of the node at `p`, in order. -/
def nextElemSibs (doc : DomNode) (p : Path) : List PInfo :=
  match parentOf doc p, p.getLast? with
  | some (pp, _, cs), some i =>
    (elemChildrenFrom pp 0 cs).filter fun (m : PInfo) =>
      match m.1.getLast? with
      | some j => decide (i < j)
      | none => false
  | _, _ => []

structure ButtonInfo where
  hasButton : Bool
  buttonText : Option String
  buttonElement : Option Path
deriving Repr, DecidableEq, Inhabited

/-- Model of the in-page helper `findAssociatedButton`: search inside the
node, then among the parent's descendants, then up to 3 next element
siblings; a found button already in `processed` is not reused (and the
search does not continue past it). -/
def findAssociatedButton (doc : DomNode) (p : Path) (processed : List Path) :
    ButtonInfo :=
  let within :=
    match getAt doc p with
    | some (.elem _ cs) => (descElems p cs).find? fun (m : PInfo) => btnSel m.2.1
    | _ => none
  let fromParent :=
    match within with
    | some b => some b
    | none =>
      match parentOf doc p with
      | some (pp, _, cs) => (descElems pp cs).find? fun (m : PInfo) => btnSel m.2.1
      | none => none
  let found :=
    match fromParent with
    | some b => some b
    | none => ((nextElemSibs doc p).take 3).find? fun (m : PInfo) => sibBtn m.2.1
  match found with
  | some b =>
    if b.1 ∈ processed then
      { hasButton := false, buttonText := none, buttonElement := none }
    else
      let bt := buttonTextOf b
      { hasButton := true
        buttonText := if bt == "" then none else some bt
        buttonElement := some b.1 }
  | none => { hasButton := false, buttonText := none, buttonElement := none }

/-! ### Locator construction (`getXPath`), tree-path version -/

/-- Same-tag element siblings before child index `i` (the `ix` counter of
`getXPath`; `tagName` comparison is case-sensitive on canonical names). -/
def countSameTagBefore (tag : String) (i : Nat) (cs : List DomNode) : Nat :=
  ((cs.take i).filter fun c =>
    match c with
    | .elem e _ => e.tagName == tag
    | .text _ => false).length

/-- The recursion of `getXPath`, with fuel bounding the recursion depth;
the caller supplies fuel equal to the path length, which the climb to the
root consumes exactly, so no fuel-exhaustion default is ever reached. -/
def getXPathAux (doc : DomNode) : Nat → Path → String
  | fuel, p =>
    match getAt doc p with
    | some (.elem e _) =>
      if e.idAttr != "" then "//*[@id=\"" ++ e.idAttr ++ "\"]"
      else
        match p with
        | [] => "/html/body"
        | a :: rest =>
          match fuel with
          | 0 => ""
          | fuel2 + 1 =>
            let pp := (a :: rest).dropLast
            let ix :=
              match getAt doc pp with
              | some (.elem _ pcs) =>
                countSameTagBefore e.tagName (((a : Nat) :: rest).getLast?.getD 0) pcs
              | _ => 0
            getXPathAux doc fuel2 pp ++ "/" ++ lowerStr e.tagName ++ "[" ++
              toString (ix + 1) ++ "]"
    | _ => ""

/-- Model of the in-page helper `getXPath` for nodes that live in the tree
rooted at `document.body` (the only nodes the extraction pass visits): the
recursion terminates at an id-bearing ancestor or at the body. -/
def getXPathAt (doc : DomNode) (p : Path) : String := getXPathAux doc p.length p

/-! ### Card detection -/

/-- The selector
`'[class*="card"], [class*="service-item"], [class*="feature"], .box'`. -/
def cardSel (e : ElemInfo) : Bool :=
  strHas (classStrRaw e) "card" || strHas (classStrRaw e) "service-item" ||
  strHas (classStrRaw e) "feature" || e.classes.contains "box"

def headingTagB (e : ElemInfo) : Bool :=
  e.tagName == "H1" || e.tagName == "H2" || e.tagName == "H3" ||
  e.tagName == "H4" || e.tagName == "H5" || e.tagName == "H6"

def textTagB (e : ElemInfo) : Bool :=
  e.tagName == "P" || e.tagName == "SPAN" || e.tagName == "DIV"

/-- Model of the in-page helper `isCardContainer`. -/
def isCardContainer (e : ElemInfo) (p : Path) (cs : List DomNode) : Bool :=
  let classStr := lowerStr (classStrRaw e)
  let hasCardClass := strHas classStr "card" || strHas classStr "service" ||
    strHas classStr "feature" || strHas classStr "item" || strHas classStr "box"
  let hasHeading := (descElems p cs).any fun (m : PInfo) => headingTagB m.2.1
  let hasText := (descElems p cs).any fun (m : PInfo) => textTagB m.2.1
  let hasMultipleElements := decide (2 ≤ (cs.filter isElemB).length)
  hasCardClass && hasHeading && hasText && hasMultipleElements

/-! ### Extraction candidates and the two collection passes -/

/-- One extraction candidate, the object literal pushed onto `elements`
inside `page.evaluate`.  `path` models the `element` node reference; walked
nodes leave `isCard` unset (falsy), modelled as `false`. -/
structure RawElement where
  path : Path
  tag : String
  text : String
  wordCount : Nat
  isHeading : Bool
  position : Pos
  xpath : String
  buttonInfo : ButtonInfo
  classList : List String
  idAttr : Option String
  isCard : Bool
deriving Repr, DecidableEq, Inhabited

/-- The in-page mutable state: the `processedNodes` set and the `elements`
array. -/
structure WalkState where
  processed : List Path
  elements : List RawElement
deriving Repr, DecidableEq

/-- Models `document.querySelectorAll(cardSel)` in document order. -/
def cardMatches (doc : DomNode) : List PInfo :=
  (elemsUnder [] doc).filter fun (m : PInfo) => cardSel m.2.1

/-- The state after promoting the card match `m`: push the card candidate,
then mark every element of its subtree, the card itself, and any associated
button as processed. -/
def cardPromote (doc : DomNode) (st : WalkState) (m : PInfo) : WalkState :=
  let bi := findAssociatedButton doc m.1 st.processed
  let cardText := normalizeSpaces (innerTextN (nodeOfPInfo m))
  { elements := st.elements ++
      [{ path := m.1, tag := "card", text := cardText
         wordCount := countWords cardText
         isHeading := false, position := m.2.1.pos
         xpath := getXPathAt doc m.1
         buttonInfo := bi, classList := m.2.1.classes
         idAttr := if m.2.1.idAttr == "" then none else some m.2.1.idAttr
         isCard := true }]
    processed := (st.processed ++ (descElems m.1 m.2.2).map fun (d : PInfo) => d.1) ++
      [m.1] ++
      (match bi.buttonElement with | some bp => [bp] | none => []) }

/-- One iteration of the card pass (`cardContainers.forEach`): skip consumed
or skip-eligible nodes, and promote a structural card whose aggregate text
has at least 4 words. -/
def cardStep (doc : DomNode) (st : WalkState) (m : PInfo) : WalkState :=
  if shouldSkip m.2.1 ∨ m.1 ∈ st.processed then st
  else if isCardContainer m.2.1 m.1 m.2.2 then
    if 4 ≤ countWords (normalizeSpaces (innerTextN (nodeOfPInfo m))) then
      cardPromote doc st m
    else st
  else st

/-- The whole card pass. -/
def cardState (doc : DomNode) : WalkState :=
  (cardMatches doc).foldl (cardStep doc) ⟨[], []⟩

/-- The acceptance condition of the walker loop:
`(isHeading && text) || wordCount >= 4`. -/
def WalkAccepts (e : ElemInfo) (cs : List DomNode) : Prop :=
  (isHeadingTag (lowerStr e.tagName) = true ∧ getExactVisibleText e cs ≠ "") ∨
  4 ≤ countWords (getExactVisibleText e cs)

instance (e : ElemInfo) (cs : List DomNode) : Decidable (WalkAccepts e cs) := by
  unfold WalkAccepts
  infer_instance

/-- The state after the walker accepts the element at `p`: push the
candidate, then mark the node and any associated button as processed. -/
def walkAccept (doc : DomNode) (p : Path) (e : ElemInfo) (cs : List DomNode)
    (st : WalkState) : WalkState :=
  let bi := findAssociatedButton doc p st.processed
  { elements := st.elements ++
      [{ path := p, tag := lowerStr e.tagName, text := getExactVisibleText e cs
         wordCount := countWords (getExactVisibleText e cs)
         isHeading := isHeadingTag (lowerStr e.tagName), position := e.pos
         xpath := getXPathAt doc p
         buttonInfo := bi, classList := e.classes
         idAttr := if e.idAttr == "" then none else some e.idAttr
         isCard := false }]
    processed := (st.processed ++ [p]) ++
      (match bi.buttonElement with | some bp => [bp] | none => []) }

/-- The body of the walker loop for a visited element node. -/
def walkVisit (doc : DomNode) (p : Path) (e : ElemInfo) (cs : List DomNode)
    (st : WalkState) : WalkState :=
  if WalkAccepts e cs then walkAccept doc p e cs st else st

/-- Children paired with their paths, for the walker's pending list. -/
def withPaths (p : Path) (i : Nat) : List DomNode → List (Path × DomNode)
  | [] => []
  | c :: r => (p ++ [i], c) :: withPaths p (i + 1) r

def pendingSize : List (Path × DomNode) → Nat
  | [] => 0
  | (_, n) :: r => nodeSize n + pendingSize r

theorem pendingSize_append (a b : List (Path × DomNode)) :
    pendingSize (a ++ b) = pendingSize a + pendingSize b := by
  induction a with
  | nil => simp [pendingSize]
  | cons x r ih => cases x; simp [pendingSize, ih]; omega

theorem pendingSize_withPaths (p : Path) (i : Nat) (cs : List DomNode) :
    pendingSize (withPaths p i cs) = nodesSize cs := by
  induction cs generalizing i with
  | nil => simp [withPaths, pendingSize, nodesSize]
  | cons c r ih => simp [withPaths, pendingSize, nodesSize, ih]

/-- The `TreeWalker` loop: document-order traversal of the pending nodes;
a skip-eligible or already-processed node is rejected together with its
entire subtree (`NodeFilter.FILTER_REJECT`).  The fuel bounds the number of
loop iterations; the caller supplies the total size of the pending trees,
which strictly dominates the number of iterations, so the fuel-exhaustion
default is never reached. -/
def walkLoop (doc : DomNode) : Nat → List (Path × DomNode) → WalkState → WalkState
  | _, [], st => st
  | 0, _ :: _, st => st
  | fuel + 1, (_, .text _) :: rest, st => walkLoop doc fuel rest st
  | fuel + 1, (p, .elem e cs) :: rest, st =>
    if shouldSkip e ∨ p ∈ st.processed then walkLoop doc fuel rest st
    else walkLoop doc fuel (withPaths p 0 cs ++ rest) (walkVisit doc p e cs st)

def rootChildren : DomNode → List DomNode
  | .elem _ cs => cs
  | .text _ => []

/-- Card pass followed by the tree walk. -/
def fullState (doc : DomNode) : WalkState :=
  walkLoop doc (pendingSize (withPaths [] 0 (rootChildren doc)))
    (withPaths [] 0 (rootChildren doc)) (cardState doc)

/-- The candidates added by the tree walk, i.e. the elements after the card
candidates in the final element list. -/
def walkNew (doc : DomNode) : List RawElement :=
  ((fullState doc).elements).drop ((cardState doc).elements).length

/-! ### The position sort -/

/-- Holds when `comparator(a, b) <= 0` for the sort comparator of the in-page code:
same row (tops within 50px) is ordered by left edge, otherwise by top. -/
def candLE (a b : RawElement) : Prop :=
  if (a.position.top - b.position.top).natAbs < 50 then
    a.position.left ≤ b.position.left
  else a.position.top ≤ b.position.top

instance : DecidableRel candLE := fun a b => by
  unfold candLE; infer_instance

/-- Model of `elements.sort(comparator)` (`Array.prototype.sort` is a stable
sort). -/
def sortCands (l : List RawElement) : List RawElement :=
  List.insertionSort candLE l

/-- The full in-page extraction (`page.evaluate` body): card pass, walk,
position sort. -/
def extractRawElements (doc : DomNode) : List RawElement :=
  sortCands (fullState doc).elements

/-! ### Grouping (`groupRelatedContent`) -/

/-- One logical section before classification (the `group` object). -/
structure Group where
  primaryElement : RawElement
  elements : List RawElement
  combinedText : String
  hasButton : Bool
  buttonText : Option String
deriving Repr, DecidableEq

/-- The inner `while (j < elements.length)` loop: absorb candidates after a
heading until the next heading/card or a vertical gap over 150px between the
previous member's bottom edge and the next candidate's top edge.  Returns
the absorbed members and the remaining candidates. -/
def absorb (prev : RawElement) :
    List RawElement → List RawElement × List RawElement
  | [] => ([], [])
  | next :: rest =>
    if next.isHeading = true ∨ next.isCard = true then ([], next :: rest)
    else if 150 < next.position.top - prev.position.bottom then ([], next :: rest)
    else
      ((next :: (absorb next rest).1), (absorb next rest).2)

theorem absorb_rest_length (prev : RawElement) (l : List RawElement) :
    (absorb prev l).2.length ≤ l.length := by
  induction l generalizing prev with
  | nil => simp [absorb]
  | cons next rest ih =>
    simp only [absorb]
    split
    · simp
    · split
      · simp
      · exact le_trans (ih next) (Nat.le_succ _)

/-- Fold the group object over the absorbed members, mirroring the mutation
of `group` inside the inner loop (text concatenation only when both sides
are non-empty; button info last-wins). -/
def buildGroup (cur : RawElement) (absorbed : List RawElement) : Group :=
  absorbed.foldl
    (fun g next =>
      { g with
        elements := g.elements ++ [next]
        combinedText :=
          if g.combinedText ≠ "" ∧ next.text ≠ "" then
            g.combinedText ++ " " ++ next.text
          else g.combinedText
        hasButton := if next.buttonInfo.hasButton then true else g.hasButton
        buttonText :=
          if next.buttonInfo.hasButton then next.buttonInfo.buttonText
          else g.buttonText })
    { primaryElement := cur, elements := [cur], combinedText := cur.text
      hasButton := cur.buttonInfo.hasButton
      buttonText := cur.buttonInfo.buttonText }

/-- The grouping loop with fuel bounding the iteration count; since
`absorb` never returns a longer remainder (`absorb_rest_length`), fuel equal
to the list length always suffices and the exhaustion default is never
reached. -/
def groupAux : Nat → List RawElement → List Group
  | _, [] => []
  | 0, _ :: _ => []
  | fuel + 1, cur :: rest =>
    if cur.isHeading = true ∧ cur.isCard = false then
      (if (buildGroup cur (absorb cur rest).1).combinedText ≠ "" ∧
          jsTrim (buildGroup cur (absorb cur rest).1).combinedText ≠ "" then
        [buildGroup cur (absorb cur rest).1] else []) ++
        groupAux fuel (absorb cur rest).2
    else
      (if (buildGroup cur []).combinedText ≠ "" ∧
          jsTrim (buildGroup cur []).combinedText ≠ "" then
        [buildGroup cur []] else []) ++
        groupAux fuel rest

/-- Model of `JunkRemovalScraper.groupRelatedContent`: a heading (non-card)
candidate opens a group and absorbs following candidates; every other
candidate forms a single-member group; groups with empty (or
whitespace-only) combined text are dropped. -/
def groupRelatedContent (l : List RawElement) : List Group := groupAux l.length l

/-! ### Classification (`determineSectionType`) -/

def groupTextLower (g : Group) : String := lowerStr g.combinedText

def groupClassLower (g : Group) : String :=
  lowerStr (joinSp g.primaryElement.classList)

def groupIdLower (g : Group) : String := lowerStr (g.primaryElement.idAttr.getD "")

def heroCond (g : Group) : Bool :=
  (g.primaryElement.tag == "h1" && decide (g.primaryElement.position.top < 800)) ||
  strHas (groupClassLower g) "hero" || strHas (groupIdLower g) "hero"

def ctaCond (g : Group) : Bool :=
  g.hasButton &&
    (strHas (groupTextLower g) "call now" || strHas (groupTextLower g) "get quote" ||
     strHas (groupTextLower g) "free estimate" || strHas (groupTextLower g) "contact" ||
     phoneMatch (groupTextLower g))

def serviceCond (g : Group) : Bool :=
  strHas (groupTextLower g) "service" || strHas (groupTextLower g) "residential" ||
  strHas (groupTextLower g) "commercial" || strHas (groupTextLower g) "construction" ||
  strHas (groupTextLower g) "estate" || strHas (groupTextLower g) "hoarding" ||
  strHas (groupTextLower g) "appliance" || strHas (groupTextLower g) "furniture" ||
  strHas (groupClassLower g) "service" || g.primaryElement.isCard

def testimonialCond (g : Group) : Bool :=
  strHas (groupTextLower g) "testimonial" || strHas (groupTextLower g) "review" ||
  strHas (groupTextLower g) "customer" || strHas (groupTextLower g) "client" ||
  quotedSpan (groupTextLower g).data ||
  strHas (groupClassLower g) "testimonial" || strHas (groupClassLower g) "review"

def faqCond (g : Group) : Bool :=
  strHas (groupTextLower g) "faq" || strHas (groupTextLower g) "frequently asked" ||
  strHas (groupTextLower g) "question" || strHas (groupTextLower g) "answer" ||
  strHas (groupClassLower g) "faq" || strHas (groupClassLower g) "accordion"

def benefitCond (g : Group) : Bool :=
  strHas (groupTextLower g) "why choose" || strHas (groupTextLower g) "benefit" ||
  strHas (groupTextLower g) "advantage" || strHas (groupTextLower g) "licensed" ||
  strHas (groupTextLower g) "insured" || strHas (groupTextLower g) "eco-friendly" ||
  strHas (groupClassLower g) "benefit" || strHas (groupClassLower g) "feature"

def processCond (g : Group) : Bool :=
  strHas (groupTextLower g) "how it works" || strHas (groupTextLower g) "process" ||
  strHas (groupTextLower g) "step" || strHas (groupTextLower g) "simple" ||
  strHas (groupClassLower g) "process" || strHas (groupClassLower g) "steps"

def aboutCond (g : Group) : Bool :=
  strHas (groupTextLower g) "about" || strHas (groupTextLower g) "our company" ||
  strHas (groupTextLower g) "who we are" || strHas (groupTextLower g) "our mission" ||
  strHas (groupClassLower g) "about"

def footerCond (g : Group) : Bool :=
  decide (3000 < g.primaryElement.position.top) ||
  strHas (groupClassLower g) "footer" ||
  strHas (groupTextLower g) "copyright" ||
  strHas (groupTextLower g) "all rights reserved"

/-- Model of `JunkRemovalScraper.determineSectionType`: the if/else chain in
source order. -/
def determineSectionType (g : Group) : String :=
  if heroCond g then "hero"
  else if ctaCond g then "cta"
  else if serviceCond g then "service"
  else if testimonialCond g then "testimonial"
  else if faqCond g then "faq"
  else if benefitCond g then "benefit"
  else if processCond g then "process"
  else if aboutCond g then "about"
  else if footerCond g then "footer"
  else "other"

/-- Model of `JunkRemovalScraper.getParentContainer`: ordered per-class-token
substring checks. -/
def getParentContainer (el : RawElement) : String :=
  if el.classList.any fun c => strHas c "header" then "header"
  else if el.classList.any fun c => strHas c "hero" then "hero-section"
  else if el.classList.any fun c => strHas c "service" then "services-section"
  else if el.classList.any fun c => strHas c "testimonial" then "testimonials-section"
  else if el.classList.any fun c => strHas c "footer" then "footer"
  else if el.classList.any fun c => strHas c "main" then "main"
  else if el.classList.any fun c => strHas c "content" then "content"
  else if el.classList.any fun c => strHas c "container" then "container"
  else "section"

/-! ### Section assembly and the entry point -/

/-- The final output record for one section. -/
structure Section where
  sectionId : String
  sectionType : String
  element : String
  text : String
  charCount : Nat
  parentContainer : String
  xpath : String
  order : Nat
  keywords : List String
  hasButton : Bool
  buttonText : Option String
deriving Repr, DecidableEq, Inhabited

/-- The scraper's `sectionCounter` object, as a table from category name to
count. -/
abbrev Counters := String → Nat

/-- The ten keys of `this.sectionCounter`. -/
def counterKeys : List String :=
  ["hero", "about", "service", "cta", "testimonial", "faq", "benefit",
   "process", "footer", "other"]

/-- Model of `resetCounters`: zero exactly the listed keys. -/
def resetCounters (c : Counters) : Counters :=
  fun k => if k ∈ counterKeys then 0 else c k

/-- Models `this.sectionCounter[ty]++`. -/
def bumpCounter (c : Counters) (ty : String) : Counters :=
  fun k => if k = ty then c k + 1 else c k

/-- One section record, built from a classified group with the counters
already incremented for its category. -/
def sectionOf (cnt2 : Counters) (idx : Nat) (g : Group) : Section :=
  { sectionId := determineSectionType g ++ "-" ++
      toString (cnt2 (determineSectionType g))
    sectionType := determineSectionType g
    element := g.primaryElement.tag
    text := g.combinedText
    charCount := g.combinedText.length
    parentContainer := getParentContainer g.primaryElement
    xpath := g.primaryElement.xpath
    order := idx + 1
    keywords := []
    hasButton := g.hasButton
    buttonText := g.buttonText }

/-- The `groupedSections.map((group, index) => ...)` section-assembly loop,
threading the mutable counters. -/
def assembleAux (cnt : Counters) (idx : Nat) :
    List Group → List Section × Counters
  | [] => ([], cnt)
  | g :: rest =>
    (sectionOf (bumpCounter cnt (determineSectionType g)) idx g ::
        (assembleAux (bumpCounter cnt (determineSectionType g)) (idx + 1) rest).1,
      (assembleAux (bumpCounter cnt (determineSectionType g)) (idx + 1) rest).2)

def assembleSections (cnt : Counters) (groups : List Group) :
    List Section × Counters :=
  assembleAux cnt 0 groups

/-- An entry of `results.errors`. -/
structure ErrRec where
  message : String
  stack : String
deriving Repr, DecidableEq

/-- Outcome of the browser steps inside the `try` block of `scrapeWebsite`:
failure before the title is read, failure of the in-page extraction after the
title is read, or a fully rendered document. -/
inductive PageRun where
  | navFail (e : ErrRec)
  | evalFail (title : String) (e : ErrRec)
  | ok (title : String) (doc : DomNode)

/-- The `results` object returned by `scrapeWebsite`. -/
structure Results where
  url : String
  title : String
  sections : List Section
  errors : List ErrRec
deriving Repr, DecidableEq

/-- Model of `JunkRemovalScraper.scrapeWebsite`: reset the per-category
counters, run the pipeline inside try/catch, and always return the results
object (a caught error is appended to `errors`; `results.sections` is only
assigned after the whole assembly map succeeds). -/
def scrapeWebsite (cnt : Counters) (url : String) (run : PageRun) :
    Results × Counters :=
  let cnt0 := resetCounters cnt
  match run with
  | .navFail e => ({ url := url, title := "", sections := [], errors := [e] }, cnt0)
  | .evalFail t e => ({ url := url, title := t, sections := [], errors := [e] }, cnt0)
  | .ok t doc =>
    let raw := extractRawElements doc
    let groups := groupRelatedContent raw
    let p := assembleSections cnt0 groups
    ({ url := url, title := t, sections := p.1, errors := [] }, p.2)

/-! ### Locator construction on detached nodes (for the error-handling model)

`getXPath` climbs `parentNode` pointers.  For a node that is neither
id-bearing nor the body and whose parent chain has run out —
a detached node, or the chain above the document element — the code
dereferences `element.parentNode.childNodes` with `parentNode === null`,
which throws a `TypeError`.  `UpNode` models exactly the data `getXPath`
consults along that climb. -/

/-- One sibling in the parent's `childNodes` list: an element with its tag,
or any other node kind. -/
inductive SibKind where
  | elemSib (tag : String)
  | otherSib
deriving Repr, DecidableEq

/-- A node as seen by the `getXPath` climb: the body, a detached node (null
parent), or a child with the siblings before/after it and its parent. -/
inductive UpNode where
  | body : UpNode
  | detached (tag idAttr : String) : UpNode
  | child (tag idAttr : String) (pre post : List SibKind) (parent : UpNode) : UpNode
deriving Repr, DecidableEq

def typeErrorMsg : String :=
  "TypeError: Cannot read properties of null (reading childNodes)"

/-- Model of the in-page helper `getXPath` over the parent chain, with the
implicit JavaScript exception made explicit. -/
def getXPathJS : UpNode → Except String String
  | .body => .ok "/html/body"
  | .detached _ idAttr =>
    if idAttr != "" then .ok ("//*[@id=\"" ++ idAttr ++ "\"]")
    else .error typeErrorMsg
  | .child tag idAttr pre _ parent =>
    if idAttr != "" then .ok ("//*[@id=\"" ++ idAttr ++ "\"]")
    else
      match getXPathJS parent with
      | .error e => .error e
      | .ok px =>
        let ix := (pre.filter fun s =>
          match s with
          | .elemSib t => t == tag
          | .otherSib => false).length
        .ok (px ++ "/" ++ lowerStr tag ++ "[" ++ toString (ix + 1) ++ "]")

/-! ### Specification-side definitions

These definitions follow the specification's wording rather than the source,
for comparison with the source-derived functions above. -/

/-- The specification's promotion conditions for a card, read off its words:
the node matches a card-like class pattern, is not skip-eligible, has a
heading descendant, a text-bearing descendant, at least 2 element children,
and aggregate text of at least 4 words. -/
def claimCardPromotable (doc : DomNode) (p : Path) : Bool :=
  (elemsUnder [] doc).any fun (m : PInfo) =>
    m.1 == p && cardSel m.2.1 && !shouldSkip m.2.1 &&
    ((descElems m.1 m.2.2).any fun (d : PInfo) => headingTagB d.2.1) &&
    ((descElems m.1 m.2.2).any fun (d : PInfo) => textTagB d.2.1) &&
    decide (2 ≤ (m.2.2.filter isElemB).length) &&
    decide (4 ≤ countWords (normalizeSpaces (innerTextN (nodeOfPInfo m))))

/-- The card-pass state accumulated strictly before the match at path `p`
gets its turn. -/
def cardPrefixState (doc : DomNode) (p : Path) : WalkState :=
  ((cardMatches doc).takeWhile fun (m : PInfo) => !(m.1 == p)).foldl
    (cardStep doc) ⟨[], []⟩

/-- The classifier as the specification states it: an ordered rule list,
first match wins, `other` as the default. -/
def classifierRules : List (String × (Group → Bool)) :=
  [("hero", heroCond), ("cta", ctaCond), ("service", serviceCond),
   ("testimonial", testimonialCond), ("faq", faqCond), ("benefit", benefitCond),
   ("process", processCond), ("about", aboutCond), ("footer", footerCond)]

def firstMatchType (g : Group) : String :=
  match classifierRules.find? fun pr => pr.2 g with
  | some pr => pr.1
  | none => "other"

/-- Every section id is its category joined to the count of sections of that
category seen so far (in list order, 1-based). -/
def IdsOk (secs : List Section) : Prop :=
  ∀ i (h : i < secs.length),
    (secs.get ⟨i, h⟩).sectionId = (secs.get ⟨i, h⟩).sectionType ++ "-" ++
      toString (((secs.take (i + 1)).filter fun s =>
        s.sectionType = (secs.get ⟨i, h⟩).sectionType).length)

/-! ### Concrete test documents and groups -/

def demoPos : Pos :=
  { top := 10, left := 10, bottom := 30, right := 200, width := 190, height := 20 }

/-- A visible element with no classes, id, or role. -/
def plainInfo (tag : String) : ElemInfo :=
  { tagName := tag, classes := [], idAttr := "", roleAttr := "", ariaHidden := false
    displayNone := false, visibilityHidden := false, opacityZero := false
    offsetWidth := 100, offsetHeight := 20, pos := demoPos }

def clsInfo (tag : String) (cls : List String) : ElemInfo :=
  { plainInfo tag with classes := cls }

/-- A page whose body holds one anchor wrapping a span: the anchor reports
its full subtree text and the span renders the same text again. -/
def demoAnchorDoc : DomNode :=
  .elem (plainInfo "BODY")
    [.elem (plainInfo "A") [.elem (plainInfo "SPAN") [.text "one two three four"]]]

/-- A page with a four-word paragraph followed by a button with no label. -/
def demoBtnDoc : DomNode :=
  .elem (plainInfo "BODY")
    [.elem (plainInfo "DIV") [.text "alpha beta gamma delta"],
     .elem (plainInfo "BUTTON") []]

/-- A card whose second child is itself a structurally valid card. -/
def demoNestedDoc : DomNode :=
  .elem (plainInfo "BODY")
    [.elem (clsInfo "DIV" ["card"])
      [.elem (plainInfo "H3") [.text "Top Deals"],
       .elem (clsInfo "DIV" ["cardbox"])
         [.elem (plainInfo "H4") [.text "Best Junk"],
          .elem (plainInfo "DIV") [.text "Offers Today Again Sale"]]]]

/-- A page with one card and one ordinary paragraph outside it. -/
def demoMixedDoc : DomNode :=
  .elem (plainInfo "BODY")
    [.elem (clsInfo "DIV" ["card"])
      [.elem (plainInfo "H3") [.text "Top Deals"],
       .elem (plainInfo "DIV") [.text "Offers Today Again Sale"]],
     .elem (plainInfo "DIV") [.text "plain words outside card"]]

def demoMixedCard : RawElement := ((cardState demoMixedDoc).elements).getD 0 default

def demoMixedWalk : RawElement := (walkNew demoMixedDoc).getD 0 default

def demoBtn0 : ButtonInfo :=
  { hasButton := false, buttonText := none, buttonElement := none }

/-- A free-standing candidate for grouping and sorting tests. -/
def demoCand (tag : String) (isH : Bool) (top bottom : Int) (txt : String) :
    RawElement :=
  { path := [0], tag := tag, text := txt, wordCount := countWords txt
    isHeading := isH
    position := { top := top, left := 0, bottom := bottom, right := 100
                  width := 100, height := bottom - top }
    xpath := "", buttonInfo := demoBtn0, classList := [], idAttr := none
    isCard := false }

def demoHeadCand : RawElement := demoCand "h2" true 0 40 "Our Junk Services"

def demoCandA : RawElement := demoCand "p" false 100 120 "We haul away everything fast"

def demoCandB : RawElement := demoCand "p" false 640 660 "Call us today for quotes"

/-- A group whose primary candidate is a top-of-page `h1` and which also has
a button and a phone number in its text. -/
def demoHeroGroup : Group :=
  { primaryElement :=
      { path := [0], tag := "h1", text := "Call 612-555-0100 Today"
        wordCount := 4, isHeading := true
        position := { demoPos with top := 100 }, xpath := "/html/body/h1[1]"
        buttonInfo := { hasButton := true, buttonText := some "Call"
                        buttonElement := some [1] }
        classList := [], idAttr := none, isCard := false }
    elements := []
    combinedText := "Call 612-555-0100 Today"
    hasButton := true
    buttonText := some "Call" }

/-- Like `demoHeroGroup` but anchored on a `div`, with a service-domain term
in the text as well. -/
def demoCtaGroup : Group :=
  { demoHeroGroup with
    primaryElement :=
      { demoHeroGroup.primaryElement with tag := "div", isHeading := false }
    combinedText := "Call 612-555-0100 Today for junk removal service" }

def mkServiceGroup (t : String) : Group :=
  { primaryElement := demoCand "div" false 0 40 t, elements := [demoCand "div" false 0 40 t]
    combinedText := t, hasButton := false, buttonText := none }

/-- Three groups that all classify as `service`. -/
def demoServiceGroups : List Group :=
  [mkServiceGroup "residential junk removal done",
   mkServiceGroup "commercial junk hauling crew",
   mkServiceGroup "estate cleanout help offered"]

/-! ### String lemmas -/

theorem firstAt_iff : ∀ pat s : List Char, firstAt pat s = true ↔ ∃ t, s = pat ++ t
  | [], s => by simp [firstAt]
  | a :: pr, [] => by simp [firstAt]
  | a :: pr, b :: sr => by
    simp only [firstAt, Bool.and_eq_true, beq_iff_eq, firstAt_iff pr sr]
    constructor
    · rintro ⟨rfl, t, rfl⟩
      exact ⟨t, rfl⟩
    · rintro ⟨t, ht⟩
      obtain ⟨rfl, rfl⟩ := List.cons_eq_cons.mp ht
      exact ⟨rfl, t, rfl⟩

theorem hasSub_iff : ∀ pat s : List Char, hasSub pat s = true ↔ ∃ u v, s = u ++ pat ++ v
  | pat, [] => by
    simp only [hasSub, firstAt_iff]
    constructor
    · rintro ⟨t, ht⟩
      exact ⟨[], t, by simpa using ht⟩
    · rintro ⟨u, v, huv⟩
      refine ⟨v, ?_⟩
      have := List.append_eq_nil.mp huv.symm
      have h2 := List.append_eq_nil.mp this.1
      simp [h2.1, h2.2, this.2]
  | pat, b :: sr => by
    simp only [hasSub, Bool.or_eq_true, firstAt_iff, hasSub_iff pat sr]
    constructor
    · rintro (⟨t, ht⟩ | ⟨u, v, huv⟩)
      · exact ⟨[], t, by simpa using ht⟩
      · exact ⟨b :: u, v, by simp [huv]⟩
    · rintro ⟨u, v, huv⟩
      cases u with
      | nil => exact Or.inl ⟨v, by simpa using huv⟩
      | cons x u2 =>
        obtain ⟨rfl, h2⟩ := List.cons_eq_cons.mp (by simpa using huv)
        exact Or.inr ⟨u2, v, by simp [h2]⟩

theorem strHas_iff (s pat : String) :
    strHas s pat = true ↔ ∃ u v, s.data = u ++ pat.data ++ v :=
  hasSub_iff pat.data s.data

theorem data_lowerStr (s : String) : (lowerStr s).data = s.data.map lowChar := rfl

theorem strHas_lowerStr {s pat : String} (hp : pat.data.map lowChar = pat.data)
    (h : strHas s pat = true) : strHas (lowerStr s) pat = true := by
  rw [strHas_iff] at h ⊢
  obtain ⟨u, v, huv⟩ := h
  exact ⟨u.map lowChar, v.map lowChar, by simp [data_lowerStr, huv, hp]⟩

theorem strHas_trans {s pat sub : String} (h : strHas s pat = true)
    (h2 : strHas pat sub = true) : strHas s sub = true := by
  rw [strHas_iff] at h h2 ⊢
  obtain ⟨u, v, huv⟩ := h
  obtain ⟨u2, v2, huv2⟩ := h2
  exact ⟨u ++ u2, v2 ++ v, by simp [huv, huv2]⟩

theorem data_append (a b : String) : (a ++ b).data = a.data ++ b.data := rfl

theorem strHas_joinSp_mem {c : String} : ∀ {l : List String}, c ∈ l →
    strHas (joinSp l) c = true := by
  intro l
  induction l with
  | nil => intro h; cases h
  | cons x r ih =>
    intro h
    rw [strHas_iff]
    rcases List.mem_cons.mp h with rfl | hr
    · cases r with
      | nil => exact ⟨[], [], by simp [joinSp]⟩
      | cons y r2 =>
        exact ⟨[], (" " ++ joinSp (y :: r2)).data, by simp [joinSp, data_append]⟩
    · have := ih hr
      rw [strHas_iff] at this
      obtain ⟨u, v, huv⟩ := this
      cases r with
      | nil => cases hr
      | cons y r2 =>
        exact ⟨(x ++ " ").data ++ u, v, by simp [joinSp, data_append, huv]⟩

/-- A node matched by the card selector satisfies the `hasCardClass` test of
`isCardContainer` (the selector's patterns survive lower-casing). -/
theorem cardSel_hasCardClass {e : ElemInfo} (h : cardSel e = true) :
    (strHas (lowerStr (classStrRaw e)) "card" ||
     strHas (lowerStr (classStrRaw e)) "service" ||
     strHas (lowerStr (classStrRaw e)) "feature" ||
     strHas (lowerStr (classStrRaw e)) "item" ||
     strHas (lowerStr (classStrRaw e)) "box") = true := by
  unfold cardSel at h
  simp only [Bool.or_eq_true] at h ⊢
  rcases h with ((h | h) | h) | h
  · exact Or.inl (Or.inl (Or.inl (Or.inl (strHas_lowerStr (by decide) h))))
  · exact Or.inl (Or.inl (Or.inl (Or.inr
      (strHas_lowerStr (by decide) (strHas_trans h (by decide))))))
  · exact Or.inl (Or.inl (Or.inr (strHas_lowerStr (by decide) h)))
  · have hm : "box" ∈ e.classes := by
      simpa using h
    exact Or.inr (strHas_lowerStr (by decide) (strHas_joinSp_mem hm))

/-! ### Sort lemmas -/

theorem candLE_total (a b : RawElement) : candLE a b ∨ candLE b a := by
  unfold candLE
  rw [show (b.position.top - a.position.top).natAbs =
      (a.position.top - b.position.top).natAbs by
    rw [← Int.natAbs_neg (a.position.top - b.position.top), neg_sub]]
  split
  · exact le_total _ _
  · exact le_total _ _

theorem chain'_orderedInsert {α : Type} {r : α → α → Prop} [DecidableRel r]
    (tot : ∀ a b, r a b ∨ r b a) (a : α) :
    ∀ l : List α, l.Chain' r → (List.orderedInsert r a l).Chain' r
  | [], _ => by simp [List.orderedInsert]
  | b :: l, h => by
    by_cases hab : r a b
    · rw [List.orderedInsert_of_le r _ hab]
      exact List.chain'_cons.mpr ⟨hab, h⟩
    · simp only [List.orderedInsert, if_neg hab]
      have h2 : (List.orderedInsert r a l).Chain' r :=
        chain'_orderedInsert tot a l h.tail
      refine List.chain'_cons'.mpr ⟨?_, h2⟩
      intro y hy
      cases l with
      | nil =>
        simp only [List.orderedInsert, List.head?_cons, Option.mem_def,
          Option.some_inj] at hy
        subst hy
        exact (tot a b).resolve_left hab
      | cons c l2 =>
        by_cases hac : r a c
        · rw [List.orderedInsert_of_le r _ hac] at hy
          simp only [List.head?_cons, Option.mem_def, Option.some_inj] at hy
          subst hy
          exact (tot a b).resolve_left hab
        · simp only [List.orderedInsert, if_neg hac, List.head?_cons,
            Option.mem_def, Option.some_inj] at hy
          subst hy
          exact (List.chain'_cons.mp h).1

theorem chain'_insertionSort {α : Type} {r : α → α → Prop} [DecidableRel r]
    (tot : ∀ a b, r a b ∨ r b a) :
    ∀ l : List α, (List.insertionSort r l).Chain' r
  | [] => by simp [List.insertionSort]
  | b :: l => by
    simpa [List.insertionSort] using
      chain'_orderedInsert tot b _ (chain'_insertionSort tot l)

/-! ### Tree-addressing lemmas -/

theorem getAt_append : ∀ (p : Path) (n : DomNode) (q : Path),
    getAt n (p ++ q) = (getAt n p).bind fun m => getAt m q
  | [], n, q => by simp [getAt]
  | i :: r, n, q => by
    cases n with
    | text s => simp [getAt]
    | elem e cs =>
      show getAt (.elem e cs) (i :: (r ++ q)) = _
      cases hj : cs[i]? with
      | none => simp [getAt, hj]
      | some c => simp [getAt, hj, getAt_append r c q]

mutual

theorem mem_elemsUnder_getAt (q : Path) (e2 : ElemInfo) (cs2 : List DomNode)
    (p : Path) :
    ∀ n : DomNode, (q, e2, cs2) ∈ elemsUnder p n →
      ∃ r, q = p ++ r ∧ getAt n r = some (.elem e2 cs2)
  | .text _, h => by simp [elemsUnder] at h
  | .elem e cs, h => by
    simp only [elemsUnder, List.mem_cons, Prod.mk.injEq] at h
    rcases h with ⟨rfl, rfl, rfl⟩ | h
    · exact ⟨[], by simp, by simp [getAt]⟩
    · obtain ⟨j, c, r, hj, rfl, hc⟩ := mem_elemsUnderL_getAt q e2 cs2 p 0 cs h
      exact ⟨j :: r, by simp, by simp [getAt, hj, hc]⟩

theorem mem_elemsUnderL_getAt (q : Path) (e2 : ElemInfo) (cs2 : List DomNode)
    (p : Path) :
    ∀ (i : Nat) (cs : List DomNode), (q, e2, cs2) ∈ elemsUnderL p i cs →
      ∃ j c r, cs[j]? = some c ∧ q = p ++ (i + j) :: r ∧
        getAt c r = some (.elem e2 cs2)
  | _, [], h => by simp [elemsUnderL] at h
  | i, c0 :: rest, h => by
    simp only [elemsUnderL, List.mem_append] at h
    rcases h with h | h
    · obtain ⟨r, rfl, hr⟩ := mem_elemsUnder_getAt q e2 cs2 (p ++ [i]) c0 h
      exact ⟨0, c0, r, by simp, by simp, hr⟩
    · obtain ⟨j, c, r, hj, rfl, hr⟩ := mem_elemsUnderL_getAt q e2 cs2 p (i + 1) rest h
      refine ⟨j + 1, c, r, by simpa using hj, ?_, hr⟩
      rw [show i + (j + 1) = i + 1 + j by omega]

end

mutual

theorem getAt_mem_elemsUnder (p : Path) (e2 : ElemInfo) (cs2 : List DomNode) :
    ∀ (n : DomNode) (r : Path), getAt n r = some (.elem e2 cs2) →
      (p ++ r, e2, cs2) ∈ elemsUnder p n
  | .text _, [], h => by simp [getAt] at h
  | .text _, _ :: _, h => by simp [getAt] at h
  | .elem e cs, [], h => by
    simp only [getAt, Option.some_inj, DomNode.elem.injEq] at h
    obtain ⟨rfl, rfl⟩ := h
    simp [elemsUnder]
  | .elem e cs, j :: r, h => by
    cases hj : cs[j]? with
    | none => simp [getAt, hj] at h
    | some c =>
      simp only [getAt, hj] at h
      have hm := getAt_mem_elemsUnderL p e2 cs2 cs 0 j c r hj h
      simp only [elemsUnder, List.mem_cons]
      right
      simpa using hm

theorem getAt_mem_elemsUnderL (p : Path) (e2 : ElemInfo) (cs2 : List DomNode) :
    ∀ (cs : List DomNode) (i j : Nat) (c : DomNode) (r : Path),
      cs[j]? = some c → getAt c r = some (.elem e2 cs2) →
      (p ++ (i + j) :: r, e2, cs2) ∈ elemsUnderL p i cs
  | [], _, j, _, _, hj, _ => by simp at hj
  | c0 :: rest, i, 0, c, r, hj, hc => by
    simp only [List.getElem?_cons_zero, Option.some_inj] at hj
    subst hj
    have hm := getAt_mem_elemsUnder (p ++ [i]) e2 cs2 c0 r hc
    simp only [elemsUnderL, List.mem_append]
    left
    simpa using hm
  | c0 :: rest, i, j + 1, c, r, hj, hc => by
    simp only [List.getElem?_cons_succ] at hj
    have hm := getAt_mem_elemsUnderL p e2 cs2 rest (i + 1) j c r hj hc
    simp only [elemsUnderL, List.mem_append]
    right
    rw [show i + (j + 1) = i + 1 + j by omega]
    exact hm

end

mutual

theorem shape_elemsUnder (p : Path) :
    ∀ (n : DomNode) (m : PInfo), m ∈ elemsUnder p n → ∃ r, m.1 = p ++ r
  | .text _, m, h => by simp [elemsUnder] at h
  | .elem e cs, m, h => by
    simp only [elemsUnder, List.mem_cons] at h
    rcases h with rfl | h
    · exact ⟨[], by simp⟩
    · obtain ⟨j, r, _, hm⟩ := shape_elemsUnderL p 0 cs m h
      exact ⟨j :: r, hm⟩

theorem shape_elemsUnderL (p : Path) :
    ∀ (i : Nat) (cs : List DomNode) (m : PInfo), m ∈ elemsUnderL p i cs →
      ∃ j r, i ≤ j ∧ m.1 = p ++ j :: r
  | _, [], m, h => by simp [elemsUnderL] at h
  | i, c0 :: rest, m, h => by
    simp only [elemsUnderL, List.mem_append] at h
    rcases h with h | h
    · obtain ⟨r, hm⟩ := shape_elemsUnder (p ++ [i]) c0 m h
      exact ⟨i, r, le_refl i, by simpa using hm⟩
    · obtain ⟨j, r, hij, hm⟩ := shape_elemsUnderL p (i + 1) rest m h
      exact ⟨j, r, by omega, hm⟩

end

/-! ### Consumed-node invariants -/

/-- Relation between a state and a later state of the same pass: the
processed set only grows, and the elements list is extended by candidates
whose nodes were fresh when accepted and consumed immediately after. -/
structure StInv (st st2 : WalkState) : Prop where
  mono : ∀ q ∈ st.processed, q ∈ st2.processed
  ext : ∃ new, st2.elements = st.elements ++ new ∧
    (new.map fun r => r.path).Nodup ∧
    ∀ r ∈ new, r.path ∉ st.processed ∧ r.path ∈ st2.processed

theorem stInv_refl (st : WalkState) : StInv st st :=
  ⟨fun _ h => h, [], by simp, by simp, by simp⟩

theorem stInv_trans {a b c : WalkState} (h1 : StInv a b) (h2 : StInv b c) :
    StInv a c := by
  obtain ⟨n1, he1, hn1, hp1⟩ := h1.ext
  obtain ⟨n2, he2, hn2, hp2⟩ := h2.ext
  refine ⟨fun q hq => h2.mono q (h1.mono q hq), n1 ++ n2, ?_, ?_, ?_⟩
  · rw [he2, he1, List.append_assoc]
  · rw [List.map_append, List.nodup_append]
    refine ⟨hn1, hn2, ?_⟩
    intro x hx hx2
    obtain ⟨r, hr, rfl⟩ := List.mem_map.mp hx
    obtain ⟨r2, hr2, heq⟩ := List.mem_map.mp hx2
    have hb : r.path ∈ b.processed := (hp1 r hr).2
    have hnb : r2.path ∉ b.processed := (hp2 r2 hr2).1
    rw [heq] at hnb
    exact hnb hb
  · intro r hr
    rcases List.mem_append.mp hr with h | h
    · exact ⟨(hp1 r h).1, h2.mono _ (hp1 r h).2⟩
    · exact ⟨fun ha => (hp2 r h).1 (h1.mono _ ha), (hp2 r h).2⟩

/-- The conditions under which the card pass promotes a match, given the
state at its turn. -/
def CardPromotes (st : WalkState) (m : PInfo) : Prop :=
  ¬(shouldSkip m.2.1 = true ∨ m.1 ∈ st.processed) ∧
  isCardContainer m.2.1 m.1 m.2.2 = true ∧
  4 ≤ countWords (normalizeSpaces (innerTextN (nodeOfPInfo m)))

theorem cardStep_eq_promote {st : WalkState} {m : PInfo} (doc : DomNode)
    (h : CardPromotes st m) : cardStep doc st m = cardPromote doc st m := by
  unfold cardStep
  rw [if_neg h.1, if_pos h.2.1, if_pos h.2.2]

theorem cardStep_eq_skip {st : WalkState} {m : PInfo} (doc : DomNode)
    (h : ¬ CardPromotes st m) : cardStep doc st m = st := by
  unfold cardStep
  split_ifs with h1 h2 h3
  · rfl
  · exact absurd ⟨h1, h2, h3⟩ h
  · rfl
  · rfl

theorem cardPromote_stInv (doc : DomNode) {st : WalkState} {m : PInfo}
    (hp : m.1 ∉ st.processed) : StInv st (cardPromote doc st m) := by
  refine ⟨?_, ?_⟩
  · intro q hq
    unfold cardPromote
    simp only [List.mem_append]
    exact Or.inl (Or.inl (Or.inl hq))
  · refine ⟨_, rfl, by simp, ?_⟩
    intro r hr
    simp only [List.mem_singleton] at hr
    subst hr
    refine ⟨hp, ?_⟩
    unfold cardPromote
    simp

theorem cardStep_stInv (doc : DomNode) (st : WalkState) (m : PInfo) :
    StInv st (cardStep doc st m) := by
  by_cases h : CardPromotes st m
  · rw [cardStep_eq_promote doc h]
    exact cardPromote_stInv doc fun hmem => h.1 (Or.inr hmem)
  · rw [cardStep_eq_skip doc h]
    exact stInv_refl st

theorem foldl_cardStep_stInv (doc : DomNode) :
    ∀ (ms : List PInfo) (st : WalkState), StInv st (ms.foldl (cardStep doc) st)
  | [], st => stInv_refl st
  | m :: tl, st => by
    rw [List.foldl_cons]
    exact stInv_trans (cardStep_stInv doc st m) (foldl_cardStep_stInv doc tl _)

theorem foldl_cardStep_valid (doc : DomNode) :
    ∀ (ms : List PInfo) (st : WalkState),
      (∀ m ∈ ms, getAt doc m.1 = some (.elem m.2.1 m.2.2)) →
      (∀ r ∈ st.elements, ∃ e2 cs2, getAt doc r.path = some (.elem e2 cs2)) →
      ∀ r ∈ (ms.foldl (cardStep doc) st).elements,
        ∃ e2 cs2, getAt doc r.path = some (.elem e2 cs2)
  | [], st, _, hst => by simpa using hst
  | m :: tl, st, hms, hst => by
    rw [List.foldl_cons]
    refine foldl_cardStep_valid doc tl (cardStep doc st m)
      (fun m2 hm2 => hms m2 (List.mem_cons_of_mem _ hm2)) ?_
    intro r hr
    by_cases h : CardPromotes st m
    · rw [cardStep_eq_promote doc h] at hr
      unfold cardPromote at hr
      simp only [List.mem_append, List.mem_singleton] at hr
      rcases hr with hr | hr
      · exact hst r hr
      · subst hr
        exact ⟨m.2.1, m.2.2, hms m (List.mem_cons_self ..)⟩
    · rw [cardStep_eq_skip doc h] at hr
      exact hst r hr

/-- Characterisation of the candidate paths produced by folding the card
step over a match list: a path appears exactly when some match at that path
is promoted against the state accumulated over the earlier matches. -/
theorem mem_foldl_cardStep_path (doc : DomNode) :
    ∀ (ms : List PInfo) (st : WalkState) (q : Path),
      (q ∈ ((ms.foldl (cardStep doc) st).elements.map fun r => r.path)) ↔
        (q ∈ (st.elements.map fun r => r.path)) ∨
        ∃ pre m post, ms = pre ++ m :: post ∧ m.1 = q ∧
          CardPromotes (pre.foldl (cardStep doc) st) m
  | [], st, q => by simp
  | m0 :: tl, st, q => by
    rw [List.foldl_cons, mem_foldl_cardStep_path doc tl (cardStep doc st m0) q]
    have hstep : (q ∈ ((cardStep doc st m0).elements.map fun r => r.path)) ↔
        (q ∈ (st.elements.map fun r => r.path)) ∨
          (CardPromotes st m0 ∧ m0.1 = q) := by
      by_cases hp : CardPromotes st m0
      · rw [cardStep_eq_promote doc hp]
        unfold cardPromote
        simp only [List.map_append, List.mem_append, List.map_cons, List.map_nil,
          List.mem_singleton]
        constructor
        · rintro (h | rfl)
          · exact Or.inl h
          · exact Or.inr ⟨hp, rfl⟩
        · rintro (h | ⟨_, rfl⟩)
          · exact Or.inl h
          · exact Or.inr rfl
      · rw [cardStep_eq_skip doc hp]
        simp [hp]
    rw [hstep]
    constructor
    · rintro ((hq | ⟨hp, rfl⟩) | ⟨pre, m, post, rfl, rfl, hpromo⟩)
      · exact Or.inl hq
      · exact Or.inr ⟨[], m0, tl, rfl, rfl, hp⟩
      · exact Or.inr ⟨m0 :: pre, m, post, rfl, rfl, hpromo⟩
    · rintro (hq | ⟨pre, m, post, heq, rfl, hpromo⟩)
      · exact Or.inl (Or.inl hq)
      · cases pre with
        | nil =>
          obtain ⟨rfl, rfl⟩ := List.cons_eq_cons.mp heq
          exact Or.inl (Or.inr ⟨hpromo, rfl⟩)
        | cons x pre2 =>
          obtain ⟨rfl, htl⟩ := List.cons_eq_cons.mp heq
          exact Or.inr ⟨pre2, m, post, htl, rfl, hpromo⟩

theorem cardPromote_desc_processed (doc : DomNode) (st : WalkState) (m : PInfo)
    {q : Path} (hq : q ∈ (descElems m.1 m.2.2).map fun (d : PInfo) => d.1) :
    q ∈ (cardPromote doc st m).processed := by
  unfold cardPromote
  simp only [List.mem_append]
  exact Or.inl (Or.inl (Or.inr hq))

mutual

theorem nodup_elemsUnder (p : Path) :
    ∀ n : DomNode, ((elemsUnder p n).map fun m => m.1).Nodup
  | .text _ => by simp [elemsUnder]
  | .elem e cs => by
    simp only [elemsUnder, List.map_cons, List.nodup_cons]
    refine ⟨?_, nodup_elemsUnderL p 0 cs⟩
    intro hmem
    obtain ⟨m, hm, hm1⟩ := List.mem_map.mp hmem
    obtain ⟨j, r, _, hshape⟩ := shape_elemsUnderL p 0 cs m hm
    rw [hshape] at hm1
    have := congrArg List.length hm1
    simp at this

theorem nodup_elemsUnderL (p : Path) :
    ∀ (i : Nat) (cs : List DomNode), ((elemsUnderL p i cs).map fun m => m.1).Nodup
  | _, [] => by simp [elemsUnderL]
  | i, c0 :: rest => by
    simp only [elemsUnderL, List.map_append]
    rw [List.nodup_append]
    refine ⟨nodup_elemsUnder (p ++ [i]) c0, nodup_elemsUnderL p (i + 1) rest, ?_⟩
    intro x hx hx2
    obtain ⟨m, hm, rfl⟩ := List.mem_map.mp hx
    obtain ⟨m2, hm2, heq⟩ := List.mem_map.mp hx2
    obtain ⟨r, hr⟩ := shape_elemsUnder (p ++ [i]) c0 m hm
    obtain ⟨j, r2, hij, hr2⟩ := shape_elemsUnderL p (i + 1) rest m2 hm2
    rw [hr] at heq
    rw [hr2] at heq
    have heq2 : i :: r = j :: r2 := by
      have h3 : (p ++ i :: r) = (p ++ j :: r2) := by simpa using heq.symm
      have h4 := congrArg (List.drop p.length) h3
      simpa [List.drop_left] using h4
    have : i = j := (List.cons_eq_cons.mp heq2).1
    omega

end

/-! ### Walker lemmas -/

theorem mem_withPaths {p : Path} :
    ∀ (cs : List DomNode) (i : Nat) (x : Path × DomNode),
      x ∈ withPaths p i cs → ∃ j, cs[j]? = some x.2 ∧ x.1 = p ++ [i + j]
  | [], _, x, h => by simp [withPaths] at h
  | c :: r, i, x, h => by
    simp only [withPaths, List.mem_cons] at h
    rcases h with rfl | h
    · exact ⟨0, by simp, by simp⟩
    · obtain ⟨j, hj, hx⟩ := mem_withPaths r (i + 1) x h
      refine ⟨j + 1, by simpa using hj, ?_⟩
      rw [hx, show i + (j + 1) = i + 1 + j by omega]

theorem walkAccept_stInv (doc : DomNode) (p : Path) (e : ElemInfo)
    (cs : List DomNode) (st : WalkState) (hp : p ∉ st.processed) :
    StInv st (walkAccept doc p e cs st) := by
  refine ⟨?_, ?_⟩
  · intro q hq
    unfold walkAccept
    simp only [List.mem_append]
    exact Or.inl (Or.inl hq)
  · refine ⟨_, rfl, by simp, ?_⟩
    intro r hr
    simp only [List.mem_singleton] at hr
    subst hr
    refine ⟨hp, ?_⟩
    unfold walkAccept
    simp

theorem walkVisit_stInv (doc : DomNode) (p : Path) (e : ElemInfo)
    (cs : List DomNode) (st : WalkState) (hp : p ∉ st.processed) :
    StInv st (walkVisit doc p e cs st) := by
  unfold walkVisit
  by_cases h : WalkAccepts e cs
  · rw [if_pos h]
    exact walkAccept_stInv doc p e cs st hp
  · rw [if_neg h]
    exact stInv_refl st

theorem walkLoop_stInv (doc : DomNode) :
    ∀ (fuel : Nat) (pending : List (Path × DomNode)) (st : WalkState),
      StInv st (walkLoop doc fuel pending st)
  | fuel, [], st => by
    simp only [walkLoop]
    exact stInv_refl st
  | 0, _ :: _, st => by
    simp only [walkLoop]
    exact stInv_refl st
  | fuel + 1, (q, .text s) :: rest, st => by
    simp only [walkLoop]
    exact walkLoop_stInv doc fuel rest st
  | fuel + 1, (p, .elem e cs) :: rest, st => by
    simp only [walkLoop]
    by_cases h : shouldSkip e = true ∨ p ∈ st.processed
    · rw [if_pos h]
      exact walkLoop_stInv doc fuel rest st
    · rw [if_neg h]
      exact stInv_trans
        (walkVisit_stInv doc p e cs st fun hmem => h (Or.inr hmem))
        (walkLoop_stInv doc fuel _ _)

theorem walkLoop_valid (doc : DomNode) :
    ∀ (fuel : Nat) (pending : List (Path × DomNode)) (st : WalkState),
      (∀ pr ∈ pending, getAt doc pr.1 = some pr.2) →
      (∀ r ∈ st.elements, ∃ e2 cs2, getAt doc r.path = some (.elem e2 cs2)) →
      ∀ r ∈ (walkLoop doc fuel pending st).elements,
        ∃ e2 cs2, getAt doc r.path = some (.elem e2 cs2)
  | fuel, [], st => by
    intro _ hst
    simp only [walkLoop]
    exact hst
  | 0, _ :: _, st => by
    intro _ hst
    simp only [walkLoop]
    exact hst
  | fuel + 1, (q, .text str) :: rest, st => by
    intro hpend hst
    simp only [walkLoop]
    exact walkLoop_valid doc fuel rest st
      (fun pr hpr => hpend pr (List.mem_cons_of_mem _ hpr)) hst
  | fuel + 1, (p, .elem e cs) :: rest, st => by
    intro hpend hst
    simp only [walkLoop]
    have hpv : getAt doc p = some (.elem e cs) :=
      hpend (p, .elem e cs) (List.mem_cons_self ..)
    by_cases hguard : shouldSkip e = true ∨ p ∈ st.processed
    · rw [if_pos hguard]
      exact walkLoop_valid doc fuel rest st
        (fun pr hpr => hpend pr (List.mem_cons_of_mem _ hpr)) hst
    · rw [if_neg hguard]
      apply walkLoop_valid doc fuel _ _
      · intro pr hpr
        rcases List.mem_append.mp hpr with h | h
        · obtain ⟨j, hj, hx⟩ := mem_withPaths cs 0 pr h
          rw [hx, getAt_append, hpv]
          simp [getAt, hj]
        · exact hpend pr (List.mem_cons_of_mem _ h)
      · intro r hr
        unfold walkVisit at hr
        by_cases hacc : WalkAccepts e cs
        · rw [if_pos hacc] at hr
          unfold walkAccept at hr
          simp only [List.mem_append, List.mem_singleton] at hr
          rcases hr with hr | hr
          · exact hst r hr
          · subst hr
            exact ⟨e, cs, hpv⟩
        · rw [if_neg hacc] at hr
          exact hst r hr

/-- Validity of the initial pending list of the walk. -/
theorem rootPending_valid (doc : DomNode) :
    ∀ pr ∈ withPaths [] 0 (rootChildren doc), getAt doc pr.1 = some pr.2 := by
  intro pr hpr
  obtain ⟨j, hj, hx⟩ := mem_withPaths (rootChildren doc) 0 pr hpr
  cases doc with
  | text s => simp [rootChildren] at hj
  | elem e cs =>
    simp only [rootChildren] at hj
    rw [hx]
    simp [getAt, hj]

theorem cardMatches_valid (doc : DomNode) :
    ∀ m ∈ cardMatches doc, getAt doc m.1 = some (.elem m.2.1 m.2.2) := by
  intro m hm
  have hm2 : m ∈ elemsUnder [] doc := (List.mem_filter.mp hm).1
  obtain ⟨r, hr, hg⟩ := mem_elemsUnder_getAt m.1 m.2.1 m.2.2 [] doc hm2
  rw [hr]
  simpa using hg

theorem cardState_valid (doc : DomNode) :
    ∀ r ∈ (cardState doc).elements, ∃ e2 cs2, getAt doc r.path = some (.elem e2 cs2) := by
  refine foldl_cardStep_valid doc (cardMatches doc) ⟨[], []⟩ (cardMatches_valid doc) ?_
  intro r hr
  simp at hr

/-- Every node that lies strictly inside a promoted card's subtree is in the
processed set at the end of the card pass. -/
theorem card_desc_processed (doc : DomNode) :
    ∀ c ∈ (cardState doc).elements, ∀ (suf : Path) (e2 : ElemInfo)
      (cs2 : List DomNode), suf ≠ [] →
      getAt doc (c.path ++ suf) = some (.elem e2 cs2) →
      (c.path ++ suf) ∈ (cardState doc).processed := by
  intro c hc suf e2 cs2 hsuf hget
  have hcp : c.path ∈ ((cardState doc).elements.map fun r => r.path) :=
    List.mem_map.mpr ⟨c, hc, rfl⟩
  unfold cardState at hcp
  rw [mem_foldl_cardStep_path] at hcp
  rcases hcp with h0 | ⟨pre, m, post, hsplit, hm1, hpromo⟩
  · simp at h0
  · have hmms : m ∈ cardMatches doc := by
      rw [hsplit]
      exact List.mem_append.mpr (Or.inr (List.mem_cons_self ..))
    have hmget : getAt doc m.1 = some (.elem m.2.1 m.2.2) := cardMatches_valid doc m hmms
    have hget2 : getAt (DomNode.elem m.2.1 m.2.2) suf = some (.elem e2 cs2) := by
      rw [← hm1] at hget
      rw [getAt_append, hmget] at hget
      simpa using hget
    obtain ⟨j, suf2, rfl⟩ : ∃ j suf2, suf = j :: suf2 := by
      cases suf with
      | nil => exact absurd rfl hsuf
      | cons j suf2 => exact ⟨j, suf2, rfl⟩
    have hdesc : (c.path ++ j :: suf2) ∈ (descElems m.1 m.2.2).map fun (d : PInfo) => d.1 := by
      cases hj : m.2.2[j]? with
      | none => simp [getAt, hj] at hget2
      | some ch =>
        simp only [getAt, hj] at hget2
        have := getAt_mem_elemsUnderL m.1 e2 cs2 m.2.2 0 j ch suf2 hj hget2
        refine List.mem_map.mpr ⟨_, this, ?_⟩
        simp [hm1]
    have hstep : (c.path ++ j :: suf2) ∈ (cardStep doc (pre.foldl (cardStep doc) ⟨[], []⟩) m).processed := by
      rw [cardStep_eq_promote doc hpromo]
      exact cardPromote_desc_processed doc _ m hdesc
    have hfold : cardState doc =
        post.foldl (cardStep doc) (cardStep doc (pre.foldl (cardStep doc) ⟨[], []⟩) m) := by
      unfold cardState
      rw [hsplit, List.foldl_append, List.foldl_cons]
    rw [hfold]
    exact (foldl_cardStep_stInv doc post _).mono _ hstep

theorem fullState_elements_eq (doc : DomNode) :
    (fullState doc).elements = (cardState doc).elements ++ walkNew doc := by
  obtain ⟨new, hnew, _, _⟩ := (walkLoop_stInv doc (pendingSize (withPaths [] 0 (rootChildren doc))) (withPaths [] 0 (rootChildren doc)) (cardState doc)).ext
  have : walkNew doc = new := by
    unfold walkNew
    rw [show (fullState doc).elements = (cardState doc).elements ++ new from hnew]
    exact List.drop_left _ _
  rw [this]
  exact hnew

theorem walkNew_props (doc : DomNode) :
    ((walkNew doc).map fun r => r.path).Nodup ∧
      ∀ r ∈ walkNew doc, r.path ∉ (cardState doc).processed ∧
        (∃ e2 cs2, getAt doc r.path = some (.elem e2 cs2)) := by
  obtain ⟨new, hnew, hnd, hpr⟩ := (walkLoop_stInv doc (pendingSize (withPaths [] 0 (rootChildren doc))) (withPaths [] 0 (rootChildren doc)) (cardState doc)).ext
  have heq : walkNew doc = new := by
    unfold walkNew
    rw [show (fullState doc).elements = (cardState doc).elements ++ new from hnew]
    exact List.drop_left _ _
  rw [heq]
  refine ⟨hnd, ?_⟩
  intro r hr
  refine ⟨(hpr r hr).1, ?_⟩
  refine walkLoop_valid doc (pendingSize (withPaths [] 0 (rootChildren doc)))
    (withPaths [] 0 (rootChildren doc)) (cardState doc)
    (rootPending_valid doc) (cardState_valid doc) r ?_
  rw [show (walkLoop doc (pendingSize (withPaths [] 0 (rootChildren doc)))
    (withPaths [] 0 (rootChildren doc)) (cardState doc)).elements
    = (cardState doc).elements ++ new from hnew]
  exact List.mem_append.mpr (Or.inr hr)

/-- No walked candidate lies strictly inside a promoted card's subtree. -/
theorem walkNew_not_under_card (doc : DomNode) :
    ∀ c ∈ (cardState doc).elements, ∀ w ∈ walkNew doc,
      ∀ suf : Path, suf ≠ [] → w.path ≠ c.path ++ suf := by
  intro c hc w hw suf hsuf heq
  obtain ⟨_, hprops⟩ := walkNew_props doc
  obtain ⟨hnp, e2, cs2, hget⟩ := hprops w hw
  rw [heq] at hget
  have := card_desc_processed doc c hc suf e2 cs2 hsuf hget
  rw [heq] at hnp
  exact hnp this

/-- The card-candidate paths are consumed by the end of the card pass. -/
theorem cardState_paths_processed (doc : DomNode) :
    ∀ c ∈ (cardState doc).elements, c.path ∈ (cardState doc).processed := by
  intro c hc
  obtain ⟨new, hnew, _, hpr⟩ := (foldl_cardStep_stInv doc (cardMatches doc) ⟨[], []⟩).ext
  have : (cardState doc).elements = new := by
    unfold cardState
    simpa using hnew
  rw [this] at hc
  exact (hpr c hc).2

/-- The full candidate list, cards plus walked nodes, repeats no node. -/
theorem fullState_nodup (doc : DomNode) :
    (((fullState doc).elements).map fun r => r.path).Nodup := by
  rw [fullState_elements_eq doc, List.map_append, List.nodup_append]
  obtain ⟨newc, hnewc, hndc, hprc⟩ := (foldl_cardStep_stInv doc (cardMatches doc) ⟨[], []⟩).ext
  have hcards : (cardState doc).elements = newc := by
    unfold cardState
    simpa using hnewc
  obtain ⟨hndw, hpropsw⟩ := walkNew_props doc
  refine ⟨by rw [hcards]; exact hndc, hndw, ?_⟩
  intro x hx hx2
  obtain ⟨r, hr, rfl⟩ := List.mem_map.mp hx
  obtain ⟨r2, hr2, heq⟩ := List.mem_map.mp hx2
  have h1 : r.path ∈ (cardState doc).processed := cardState_paths_processed doc r hr
  have h2 : r2.path ∉ (cardState doc).processed := (hpropsw r2 hr2).1
  rw [heq] at h2
  exact h2 h1

/-! ### Characterising card promotion -/

theorem takeWhile_eq_of_split {α : Type} (pred : α → Bool) :
    ∀ (pre : List α) (m : α) (post : List α),
      (∀ x ∈ pre, pred x = true) → pred m = false →
      (pre ++ m :: post).takeWhile pred = pre
  | [], m, post, _, hm => by simp [List.takeWhile_cons, hm]
  | x :: pre2, m, post, hpre, hm => by
    have hx : pred x = true := hpre x (List.mem_cons_self ..)
    simp only [List.cons_append, List.takeWhile_cons, hx, if_true]
    rw [takeWhile_eq_of_split pred pre2 m post
      (fun y hy => hpre y (List.mem_cons_of_mem _ hy)) hm]

theorem split_at_first {p : Path} :
    ∀ (ms : List PInfo), ((ms.map fun x => x.1).Nodup) →
      ∀ {m : PInfo}, m ∈ ms → m.1 = p →
      ∃ post, ms = (ms.takeWhile fun x : PInfo => !(x.1 == p)) ++ m :: post
  | [], _, _, h, _ => absurd h (List.not_mem_nil _)
  | x :: rest, hnd, m, hm, hp => by
    rw [List.map_cons, List.nodup_cons] at hnd
    by_cases hx : x.1 = p
    · have hmx : m = x := by
        rcases List.mem_cons.mp hm with rfl | hmr
        · rfl
        · exact absurd (by rw [hx, ← hp]; exact List.mem_map.mpr ⟨m, hmr, rfl⟩) hnd.1
      subst hmx
      refine ⟨rest, ?_⟩
      have hpx : (!(m.1 == p)) = false := by simp [hp]
      simp [List.takeWhile_cons, hpx]
    · rcases List.mem_cons.mp hm with rfl | hmr
      · exact absurd hp hx
      · obtain ⟨post, hpost⟩ := split_at_first rest hnd.2 hmr hp
        refine ⟨post, ?_⟩
        have hpx : (!(x.1 == p)) = true := by simp [hx]
        simp only [List.takeWhile_cons, hpx, if_true]
        rw [List.cons_append, ← hpost]

theorem nodup_cardMatches (doc : DomNode) :
    ((cardMatches doc).map fun m => m.1).Nodup := by
  have hsub : (cardMatches doc).Sublist (elemsUnder [] doc) :=
    List.filter_sublist _
  exact (nodup_elemsUnder [] doc).sublist (hsub.map _)

/-- A node's path appears among the card candidates exactly when it
satisfies the specification's promotion conditions and has not already been
consumed when its turn in the card pass arrives. -/
theorem cardPromotion_char (doc : DomNode) (p : Path) :
    (p ∈ ((cardState doc).elements.map fun r => r.path)) ↔
      claimCardPromotable doc p = true ∧
        p ∉ (cardPrefixState doc p).processed := by
  have hnd := nodup_cardMatches doc
  constructor
  · intro hp
    unfold cardState at hp
    rw [mem_foldl_cardStep_path] at hp
    rcases hp with h0 | ⟨pre, m, post, hsplit, hm1, hpromo⟩
    · simp at h0
    · obtain ⟨hns, hicc, hwc⟩ := hpromo
      have hmem_ms : m ∈ cardMatches doc := by
        rw [hsplit]
        exact List.mem_append.mpr (Or.inr (List.mem_cons_self ..))
      have hfil := List.mem_filter.mp hmem_ms
      have hskip : shouldSkip m.2.1 = false := by
        have := (not_or.mp hns).1
        cases h : shouldSkip m.2.1
        · rfl
        · exact absurd h this
      simp only [isCardContainer, Bool.and_eq_true] at hicc
      obtain ⟨⟨⟨hcc, hhead⟩, htext⟩, hmult⟩ := hicc
      have hnd2 := hnd
      rw [hsplit, List.map_append, List.map_cons, List.nodup_append] at hnd2
      obtain ⟨_, _, hdisj⟩ := hnd2
      have hpre_ne : ∀ x ∈ pre, ¬(x.1 = p) := by
        intro x hx hxp
        exact hdisj (List.mem_map.mpr ⟨x, hx, rfl⟩)
          (by rw [hxp, ← hm1]; exact List.mem_cons_self ..)
      have htw : ((pre ++ m :: post).takeWhile fun x : PInfo => !(x.1 == p)) = pre :=
        takeWhile_eq_of_split _ pre m post
          (fun x hx => by simp [hpre_ne x hx]) (by simp [hm1])
      constructor
      · unfold claimCardPromotable
        rw [List.any_eq_true]
        refine ⟨m, hfil.1, ?_⟩
        simp only [Bool.and_eq_true]
        refine ⟨⟨⟨⟨⟨⟨by simp [hm1], hfil.2⟩, by simp [hskip]⟩, hhead⟩, htext⟩,
          hmult⟩, by simp [hwc]⟩
      · intro hmem
        unfold cardPrefixState at hmem
        rw [hsplit, htw] at hmem
        exact (not_or.mp hns).2 (by rw [hm1]; exact hmem)
  · rintro ⟨hclaim, hnp⟩
    unfold claimCardPromotable at hclaim
    rw [List.any_eq_true] at hclaim
    obtain ⟨m, hmem, hcond⟩ := hclaim
    simp only [Bool.and_eq_true] at hcond
    obtain ⟨⟨⟨⟨⟨⟨hm1, hsel⟩, hskip⟩, hhead⟩, htext⟩, hmult⟩, hwc⟩ := hcond
    have hm1' : m.1 = p := by simpa using hm1
    have hskip' : shouldSkip m.2.1 = false := by simpa using hskip
    have hmem_ms : m ∈ cardMatches doc := List.mem_filter.mpr ⟨hmem, hsel⟩
    obtain ⟨post, hsplit⟩ := split_at_first (cardMatches doc) hnd hmem_ms hm1'
    unfold cardState
    rw [mem_foldl_cardStep_path]
    right
    refine ⟨_, m, post, hsplit, hm1', ?_, ?_, by simpa using hwc⟩
    · rw [not_or]
      refine ⟨by simp [hskip'], ?_⟩
      rw [hm1']
      exact fun hmm => hnp hmm
    · simp only [isCardContainer, Bool.and_eq_true]
      exact ⟨⟨⟨cardSel_hasCardClass hsel, hhead⟩, htext⟩, hmult⟩

/-! ### Classifier lemmas -/

theorem determineSectionType_eq_firstMatch (g : Group) :
    determineSectionType g = firstMatchType g := by
  unfold determineSectionType firstMatchType classifierRules
  split_ifs <;> simp_all [List.find?]

theorem determineSectionType_mem (g : Group) :
    determineSectionType g ∈ counterKeys := by
  unfold determineSectionType counterKeys
  split_ifs <;> simp

/-! ### Assembly lemmas -/

theorem assembleAux_sections :
    ∀ (groups : List Group) (cnt : Counters) (idx : Nat),
      ∀ s ∈ (assembleAux cnt idx groups).1,
        s.charCount = s.text.length ∧ ∃ g ∈ groups, s.text = g.combinedText
  | [], _, _, s, hs => by simp [assembleAux] at hs
  | g :: rest, cnt, idx, s, hs => by
    simp only [assembleAux, List.mem_cons] at hs
    rcases hs with rfl | hs
    · exact ⟨rfl, g, List.mem_cons_self .., rfl⟩
    · obtain ⟨hc, g2, hg2, ht⟩ := assembleAux_sections rest _ _ s hs
      exact ⟨hc, g2, List.mem_cons_of_mem _ hg2, ht⟩

theorem assembleAux_congr :
    ∀ (groups : List Group) (c1 c2 : Counters) (idx : Nat),
      (∀ k ∈ counterKeys, c1 k = c2 k) →
      (assembleAux c1 idx groups).1 = (assembleAux c2 idx groups).1
  | [], _, _, _, _ => rfl
  | g :: rest, c1, c2, idx, h => by
    have hty := determineSectionType_mem g
    have hc : c1 (determineSectionType g) = c2 (determineSectionType g) := h _ hty
    have hb : ∀ k ∈ counterKeys,
        bumpCounter c1 (determineSectionType g) k =
          bumpCounter c2 (determineSectionType g) k := by
      intro k hk
      unfold bumpCounter
      by_cases hkty : k = determineSectionType g <;> simp [hkty, h k hk, hc]
    simp only [assembleAux]
    have hsec : sectionOf (bumpCounter c1 (determineSectionType g)) idx g =
        sectionOf (bumpCounter c2 (determineSectionType g)) idx g := by
      unfold sectionOf
      rw [hb _ hty]
    rw [hsec, assembleAux_congr rest _ _ (idx + 1) hb]

theorem assembleAux_length :
    ∀ (groups : List Group) (cnt : Counters) (idx : Nat),
      ((assembleAux cnt idx groups).1).length = groups.length
  | [], _, _ => rfl
  | g :: rest, cnt, idx => by
    simp only [assembleAux, List.length_cons, assembleAux_length rest]

theorem assembleAux_types :
    ∀ (groups : List Group) (cnt : Counters) (idx : Nat),
      ∀ s ∈ (assembleAux cnt idx groups).1, s.sectionType ∈ counterKeys
  | [], _, _, s, hs => by simp [assembleAux] at hs
  | g :: rest, cnt, idx, s, hs => by
    simp only [assembleAux, List.mem_cons] at hs
    rcases hs with rfl | hs
    · exact determineSectionType_mem g
    · exact assembleAux_types rest _ _ s hs

theorem assembleAux_split :
    ∀ (groups : List Group) (cnt : Counters) (idx : Nat) (pre : List Section)
      (s : Section) (post : List Section),
      (assembleAux cnt idx groups).1 = pre ++ s :: post →
      s.sectionId = s.sectionType ++ "-" ++
        toString (cnt s.sectionType +
          ((pre ++ [s]).filter fun x => x.sectionType = s.sectionType).length)
  | [], _, _, pre, s, post, h => by simp [assembleAux] at h
  | g :: rest, cnt, idx, pre, s, post, h => by
    simp only [assembleAux] at h
    cases pre with
    | nil =>
      simp only [List.nil_append] at h ⊢
      obtain ⟨rfl, -⟩ := List.cons_eq_cons.mp h
      simp [sectionOf, bumpCounter]
    | cons x pre2 =>
      simp only [List.cons_append] at h
      obtain ⟨rfl, h2⟩ := List.cons_eq_cons.mp h
      have ih := assembleAux_split rest (bumpCounter cnt (determineSectionType g))
        (idx + 1) pre2 s post h2
      rw [ih]
      have harg : bumpCounter cnt (determineSectionType g) s.sectionType +
          ((pre2 ++ [s]).filter fun x => x.sectionType = s.sectionType).length =
          cnt s.sectionType +
          ((sectionOf (bumpCounter cnt (determineSectionType g)) idx g ::
            (pre2 ++ [s])).filter fun x =>
              x.sectionType = s.sectionType).length := by
        rw [List.filter_cons]
        by_cases hT : determineSectionType g = s.sectionType
        · rw [if_pos (by simp [sectionOf, hT])]
          simp only [bumpCounter]
          rw [if_pos hT.symm]
          simp only [List.length_cons]
          omega
        · rw [if_neg (by simp [sectionOf, hT])]
          simp only [bumpCounter]
          rw [if_neg fun hh => hT hh.symm]
      rw [harg, List.cons_append]

/-- The section-id invariant, for assembly started from freshly reset
counters. -/
theorem idsOk_assemble (c : Counters) (groups : List Group) :
    IdsOk ((assembleSections (resetCounters c) groups).1) := by
  intro i hlt
  have hsplit : (assembleSections (resetCounters c) groups).1 =
      ((assembleSections (resetCounters c) groups).1).take i ++
        ((assembleSections (resetCounters c) groups).1).get ⟨i, hlt⟩ ::
        ((assembleSections (resetCounters c) groups).1).drop (i + 1) := by
    conv_lhs => rw [← List.take_append_drop i
      ((assembleSections (resetCounters c) groups).1)]
    rw [List.drop_eq_getElem_cons hlt]
    simp
  have hmain := assembleAux_split groups (resetCounters c) 0 _ _ _ hsplit
  have hty : (((assembleSections (resetCounters c) groups).1).get
      ⟨i, hlt⟩).sectionType ∈ counterKeys := by
    refine assembleAux_types groups (resetCounters c) 0 _ ?_
    exact List.get_mem _ _ hlt
  have hzero : (resetCounters c)
      ((((assembleSections (resetCounters c) groups).1).get
        ⟨i, hlt⟩).sectionType) = 0 := by
    simp only [resetCounters]
    rw [if_pos hty]
  rw [hmain, hzero]
  have htake : ((assembleSections (resetCounters c) groups).1).take (i + 1) =
      ((assembleSections (resetCounters c) groups).1).take i ++
        [((assembleSections (resetCounters c) groups).1).get ⟨i, hlt⟩] := by
    rw [List.take_succ]
    simp [List.getElem?_eq_getElem hlt]
  rw [htake]
  simp

/-! ## Claim theorems -/

/-- C1: The extraction entry point never throws past its boundary.  Any
fault of the browser steps (navigation, in-page evaluation) is caught once,
appended to `errors` as an error record, and the call still returns a
results object; the sections list is assigned only after the whole assembly
map succeeds, so the returned sections are either empty or the complete
assembled list, never partially-initialized records; whenever errors is
non-empty the sections list is empty. -/
theorem scrapeWebsite_fails_closed :
    (∀ (cnt : Counters) (url : String) (e : ErrRec),
      (scrapeWebsite cnt url (.navFail e)).1 =
        { url := url, title := "", sections := [], errors := [e] }) ∧
    (∀ (cnt : Counters) (url t : String) (e : ErrRec),
      (scrapeWebsite cnt url (.evalFail t e)).1 =
        { url := url, title := t, sections := [], errors := [e] }) ∧
    (∀ (cnt : Counters) (url t : String) (doc : DomNode),
      (scrapeWebsite cnt url (.ok t doc)).1 =
        { url := url, title := t
          sections := (assembleSections (resetCounters cnt)
            (groupRelatedContent (extractRawElements doc))).1
          errors := [] }) ∧
    (∀ (cnt : Counters) (url : String) (run : PageRun),
      (scrapeWebsite cnt url run).1.errors = [] ∨
        (scrapeWebsite cnt url run).1.sections = []) := by
  refine ⟨fun _ _ _ => rfl, fun _ _ _ _ => rfl, fun _ _ _ _ => rfl, ?_⟩
  intro cnt url run
  cases run with
  | navFail e => exact Or.inr rfl
  | evalFail t e => exact Or.inr rfl
  | ok t doc => exact Or.inl rfl

/-- C2 counterexample: on a page where an anchor wraps a span holding a text
block rendered once, the extractor yields two sections with identical text —
the anchor reports its full subtree text and its descendants are not marked
consumed, so the span is captured again.  The claimed dedup invariant fails
as stated. -/
theorem extract_duplicate_text_counterexample :
    ((scrapeWebsite (fun _ => 0) "https://example.test"
        (.ok "t" demoAnchorDoc)).1.sections.map fun s => s.text) =
      ["one two three four", "one two three four"] ∧
    ¬ ((scrapeWebsite (fun _ => 0) "https://example.test"
        (.ok "t" demoAnchorDoc)).1.sections.Pairwise
          fun s1 s2 => s1.text ≠ s2.text) := by
  exact ⟨by decide, by decide⟩

/-- C2 amended: no node yields two candidates — the candidate list (cards
and walked nodes, before and after the position sort) repeats no node; no
walked candidate lies strictly inside a promoted card's subtree; and a
non-interactive container with a non-skippable element child yields empty
text itself.  The exception forced by the counterexample: a button or
anchor element returns its full subtree text while its descendants are not
marked consumed, so the same text block can be captured again below it. -/
theorem extract_dedup_amended :
    (∀ doc : DomNode, (((fullState doc).elements).map fun r => r.path).Nodup) ∧
    (∀ doc : DomNode, ((extractRawElements doc).map fun r => r.path).Nodup) ∧
    (∀ doc : DomNode, ∀ c ∈ (cardState doc).elements, ∀ w ∈ walkNew doc,
      ∀ suf : Path, suf ≠ [] → w.path ≠ c.path ++ suf) ∧
    (∀ (e : ElemInfo) (cs : List DomNode),
      e.tagName ≠ "BUTTON" → e.tagName ≠ "A" →
      (∃ c ∈ cs, nonSkipElemChild c = true) →
      getExactVisibleText e cs = "") := by
  refine ⟨fullState_nodup, ?_, walkNew_not_under_card, ?_⟩
  · intro doc
    have hperm : (extractRawElements doc).Perm (fullState doc).elements :=
      List.perm_insertionSort candLE _
    exact ((hperm.map fun r => r.path).nodup_iff).mpr (fullState_nodup doc)
  · intro e cs h1 h2 hch
    obtain ⟨c, hc, hns⟩ := hch
    unfold getExactVisibleText
    rw [if_neg (by simp [h1, h2]), if_neg]
    intro hall
    have hsk := List.all_eq_true.mp hall c hc
    cases c with
    | text str => exact nomatch hns
    | elem e2 cs2 =>
      have hsk2 : shouldSkip e2 = true := hsk
      have hns2 : (!shouldSkip e2) = true := hns
      rw [hsk2] at hns2
      simp at hns2

/-- C2 amended, witness: concrete instances of the dedup conjuncts. -/
theorem extract_dedup_amended_witness :
    (((fullState demoBtnDoc).elements).map fun r => r.path).Nodup ∧
    demoMixedWalk.path ≠ demoMixedCard.path ++ [0] ∧
    getExactVisibleText (plainInfo "DIV")
      [DomNode.elem (plainInfo "SPAN") [DomNode.text "hello"]] = "" := by
  refine ⟨extract_dedup_amended.1 demoBtnDoc, ?_, ?_⟩
  · exact extract_dedup_amended.2.2.1 demoMixedDoc demoMixedCard (by decide)
      demoMixedWalk (by decide) [0] (by decide)
  · exact extract_dedup_amended.2.2.2 (plainInfo "DIV") _ (by decide) (by decide)
      ⟨DomNode.elem (plainInfo "SPAN") [DomNode.text "hello"], by simp, by decide⟩

/-- C3 counterexample: a group with an associated button and a 3-3-4 phone
pattern in its text whose primary candidate is an `h1` with top coordinate
below 800px classifies as `hero`, not `cta` — the hero rule is evaluated
first, so the claimed "for every group with button and phone pattern"
universal fails. -/
theorem classifier_hero_overrides_cta_counterexample :
    demoHeroGroup.hasButton = true ∧
    phoneMatch (groupTextLower demoHeroGroup) = true ∧
    determineSectionType demoHeroGroup = "hero" ∧
    determineSectionType demoHeroGroup ≠ "cta" := by
  exact ⟨rfl, by decide, by decide, by decide⟩

/-- C3 amended: the classifier equals the first-match evaluation of the
rule list hero, cta, service, testimonial, faq, benefit, process, about,
footer with default `other`; and every group with an associated button and
a 3-3-4 phone pattern in its combined text that does not already match the
hero rule classifies as `cta`, not `service`, even if service-domain terms
also match. -/
theorem classifier_priority_amended :
    (∀ g : Group, determineSectionType g = firstMatchType g) ∧
    (∀ g : Group, g.hasButton = true →
      phoneMatch (groupTextLower g) = true →
      heroCond g = false →
      determineSectionType g = "cta" ∧ determineSectionType g ≠ "service") := by
  refine ⟨determineSectionType_eq_firstMatch, ?_⟩
  intro g hbtn hphone hhero
  have hcta : ctaCond g = true := by
    unfold ctaCond
    simp [hbtn, hphone]
  have hres : determineSectionType g = "cta" := by
    unfold determineSectionType
    rw [if_neg (by simp [hhero]), if_pos (by simp [hcta])]
  exact ⟨hres, by rw [hres]; decide⟩

/-- C3 amended, witness: the spec scenario — "Call 612-555-0100 Today" with
a button and a service-domain term in the text — classifies as `cta`. -/
theorem classifier_priority_amended_witness :
    determineSectionType demoCtaGroup = "cta" ∧
    determineSectionType demoCtaGroup ≠ "service" :=
  classifier_priority_amended.2 demoCtaGroup rfl (by decide) (by decide)

/-- C4 counterexample: a structurally valid card nested inside another card
satisfies every promotion condition the claim lists, yet it is not promoted,
because the outer card's promotion consumed it first — the claimed "exactly
when" equivalence fails without a not-already-consumed condition. -/
theorem nested_card_not_promoted_counterexample :
    claimCardPromotable demoNestedDoc [0, 1] = true ∧
    [0, 1] ∉ ((cardState demoNestedDoc).elements.map fun r => r.path) ∧
    ((cardState demoNestedDoc).elements.map fun r => r.path) = [[0]] := by
  exact ⟨by decide, by decide, by decide⟩

/-- C4 amended: a node is promoted as a card candidate exactly when it
satisfies the claimed conditions (card-like class pattern, not
skip-eligible, heading descendant, text-bearing descendant, at least 2
element children, aggregate text of at least 4 words) AND is not already
consumed when its turn in the card pass arrives; and a promoted card is
atomic — no walked candidate lies strictly inside its subtree. -/
theorem card_promotion_amended :
    (∀ (doc : DomNode) (p : Path),
      (p ∈ ((cardState doc).elements.map fun r => r.path)) ↔
        claimCardPromotable doc p = true ∧
          p ∉ (cardPrefixState doc p).processed) ∧
    (∀ doc : DomNode, ∀ c ∈ (cardState doc).elements, ∀ w ∈ walkNew doc,
      ∀ suf : Path, suf ≠ [] → w.path ≠ c.path ++ suf) :=
  ⟨cardPromotion_char, walkNew_not_under_card⟩

/-- C4 amended, witness: the outer demo card is promoted via the
equivalence, and the walked paragraph of the mixed page is not a descendant
of its promoted card. -/
theorem card_promotion_amended_witness :
    [0] ∈ ((cardState demoNestedDoc).elements.map fun r => r.path) ∧
    demoMixedWalk.path ≠ demoMixedCard.path ++ [1] := by
  refine ⟨(card_promotion_amended.1 demoNestedDoc [0]).mpr ⟨by decide, by decide⟩, ?_⟩
  exact card_promotion_amended.2 demoMixedDoc demoMixedCard (by decide)
    demoMixedWalk (by decide) [1] (by decide)

/-- C5: a heading (non-card) candidate opens a group and absorbs following
non-heading, non-card candidates while the vertical gap from the previous
member's bottom edge to the next candidate's top edge stays within 150px;
with a gap over 150px before the second trailing candidate, the group
closes and the two candidates land in two separate sections. -/
theorem grouping_gap_splits (h a b : RawElement)
    (hh : h.isHeading = true) (hhc : h.isCard = false)
    (ha : a.isHeading = false) (hac : a.isCard = false)
    (hb : b.isHeading = false) (hbc : b.isCard = false)
    (hgap1 : a.position.top - h.position.bottom ≤ 150)
    (hgap2 : 150 < b.position.top - a.position.bottom)
    (hht : h.text ≠ "") (hat : a.text ≠ "")
    (htr1 : jsTrim (h.text ++ " " ++ a.text) ≠ "")
    (hbt : b.text ≠ "") (htr2 : jsTrim b.text ≠ "") :
    groupRelatedContent [h, a, b] =
      [{ primaryElement := h, elements := [h, a]
         combinedText := h.text ++ " " ++ a.text
         hasButton := if a.buttonInfo.hasButton then true else h.buttonInfo.hasButton
         buttonText := if a.buttonInfo.hasButton then a.buttonInfo.buttonText
           else h.buttonInfo.buttonText },
       { primaryElement := b, elements := [b], combinedText := b.text
         hasButton := b.buttonInfo.hasButton
         buttonText := b.buttonInfo.buttonText }] := by
  have habs2 : absorb a [b] = ([], [b]) := by
    rw [absorb, if_neg (by simp [hb, hbc]), if_pos hgap2]
  have habs1 : absorb h [a, b] = ([a], [b]) := by
    rw [absorb, if_neg (by simp [ha, hac]), if_neg (by omega), habs2]
  have hbg : buildGroup h [a] =
      { primaryElement := h, elements := [h, a]
        combinedText := h.text ++ " " ++ a.text
        hasButton := if a.buttonInfo.hasButton then true else h.buttonInfo.hasButton
        buttonText := if a.buttonInfo.hasButton then a.buttonInfo.buttonText
          else h.buttonInfo.buttonText } := by
    unfold buildGroup
    simp only [List.foldl_cons, List.foldl_nil]
    rw [if_pos ⟨hht, hat⟩]
    rfl
  have hcomb : (buildGroup h [a]).combinedText = h.text ++ " " ++ a.text := by
    rw [hbg]
  have hne1 : h.text ++ " " ++ a.text ≠ "" := by
    intro h0
    exact htr1 (by rw [h0]; rfl)
  have hb1 : groupAux 2 [b] =
      [{ primaryElement := b, elements := [b], combinedText := b.text
         hasButton := b.buttonInfo.hasButton
         buttonText := b.buttonInfo.buttonText }] := by
    rw [groupAux, if_neg (by simp [hb]), if_pos ⟨hbt, htr2⟩, groupAux]
    rfl
  show groupAux 3 [h, a, b] = _
  rw [groupAux, if_pos ⟨hh, hhc⟩, habs1,
    if_pos (by rw [hcomb]; exact ⟨hne1, htr1⟩ :
      (buildGroup h [a]).combinedText ≠ "" ∧
        jsTrim (buildGroup h [a]).combinedText ≠ ""),
    hb1, hbg]
  rfl

/-- C5 witness: the spec scenario — candidates at vertical tops 100 and 640
after a heading — yields two separate groups. -/
theorem grouping_gap_splits_witness :
    groupRelatedContent [demoHeadCand, demoCandA, demoCandB] =
      [{ primaryElement := demoHeadCand, elements := [demoHeadCand, demoCandA]
         combinedText := demoHeadCand.text ++ " " ++ demoCandA.text
         hasButton := if demoCandA.buttonInfo.hasButton then true
           else demoHeadCand.buttonInfo.hasButton
         buttonText := if demoCandA.buttonInfo.hasButton then
           demoCandA.buttonInfo.buttonText
           else demoHeadCand.buttonInfo.buttonText },
       { primaryElement := demoCandB, elements := [demoCandB]
         combinedText := demoCandB.text
         hasButton := demoCandB.buttonInfo.hasButton
         buttonText := demoCandB.buttonInfo.buttonText }] :=
  grouping_gap_splits demoHeadCand demoCandA demoCandB rfl rfl rfl rfl rfl rfl
    (by decide) (by decide) (by decide) (by decide) (by decide) (by decide)
    (by decide)

/-- C6: the position sort is a permutation of the candidates; every
adjacent pair of its output is ordered by left edge ascending when the two
tops are within 50px and by top edge ascending otherwise; and the sort is
stable — a pair already in comparator order (ties included) keeps its
relative order. -/
theorem position_sort_spec :
    (∀ l : List RawElement, (sortCands l).Perm l) ∧
    (∀ l : List RawElement, (sortCands l).Chain' fun x y =>
      if (x.position.top - y.position.top).natAbs < 50 then
        x.position.left ≤ y.position.left
      else x.position.top ≤ y.position.top) ∧
    (∀ (x y : RawElement) (l : List RawElement), candLE x y →
      List.Sublist [x, y] l → List.Sublist [x, y] (sortCands l)) := by
  refine ⟨fun l => List.perm_insertionSort candLE l, fun l => ?_,
    fun x y l hxy hsub => List.pair_sublist_insertionSort hxy hsub⟩
  exact chain'_insertionSort candLE_total l

/-- C6 witness: stability and permutation on a concrete pair. -/
theorem position_sort_spec_witness :
    (sortCands [demoCandA, demoCandB]).Perm [demoCandA, demoCandB] ∧
    List.Sublist [demoCandA, demoCandB] (sortCands [demoCandA, demoCandB]) :=
  ⟨position_sort_spec.1 [demoCandA, demoCandB],
   position_sort_spec.2.2 demoCandA demoCandB [demoCandA, demoCandB]
     (by decide) (List.Sublist.refl _)⟩

/-- C7: the scrape result is independent of the counter state left by any
previous extraction (the counters are reset at the start of every run), and
for every run each section id is its category joined to the 1-based count
of sections of that category so far, in final order — so category counters
start at 1 and advance independently. -/
theorem section_ids_per_category :
    (∀ (c1 c2 : Counters) (url : String) (run : PageRun),
      (scrapeWebsite c1 url run).1 = (scrapeWebsite c2 url run).1) ∧
    (∀ (c : Counters) (groups : List Group),
      IdsOk ((assembleSections (resetCounters c) groups).1)) := by
  constructor
  · intro c1 c2 url run
    cases run with
    | navFail e => rfl
    | evalFail t e => rfl
    | ok t doc =>
      have hagree : ∀ k ∈ counterKeys,
          resetCounters c1 k = resetCounters c2 k := by
        intro k hk
        simp [resetCounters, hk]
      simp only [scrapeWebsite, assembleSections]
      rw [assembleAux_congr (groupRelatedContent (extractRawElements doc))
        (resetCounters c1) (resetCounters c2) 0 hagree]
  · exact idsOk_assemble

/-- C7 witness: three `service` groups produce ids `service-1`,
`service-2`, `service-3`, and the id law holds at index 2. -/
theorem section_ids_per_category_witness :
    (((assembleSections (resetCounters fun _ => 0) demoServiceGroups).1).map
      fun s => s.sectionId) = ["service-1", "service-2", "service-3"] ∧
    (((assembleSections (resetCounters fun _ => 0) demoServiceGroups).1).get
        ⟨2, by decide⟩).sectionId =
      (((assembleSections (resetCounters fun _ => 0) demoServiceGroups).1).get
        ⟨2, by decide⟩).sectionType ++ "-" ++
        toString (((((assembleSections (resetCounters fun _ => 0)
            demoServiceGroups).1).take 3).filter fun s =>
          s.sectionType = (((assembleSections (resetCounters fun _ => 0)
            demoServiceGroups).1).get ⟨2, by decide⟩).sectionType).length) :=
  ⟨by decide,
   section_ids_per_category.2 (fun _ => 0) demoServiceGroups 2 (by decide)⟩

/-- C8: every produced section's `charCount` equals the length of its
`text`, and the text is the group's combined text copied verbatim. -/
theorem charCount_eq_text_length :
    ∀ (cnt : Counters) (groups : List Group),
      ∀ s ∈ (assembleSections cnt groups).1,
        s.charCount = s.text.length ∧ ∃ g ∈ groups, s.text = g.combinedText :=
  fun cnt groups => assembleAux_sections groups cnt 0

/-- C8 witness: the law at the first section of a concrete run. -/
theorem charCount_eq_text_length_witness :
    (((assembleSections (fun _ => 0) demoServiceGroups).1).getD 0
      default).charCount =
      (((assembleSections (fun _ => 0) demoServiceGroups).1).getD 0
        default).text.length ∧
    ∃ g ∈ demoServiceGroups,
      (((assembleSections (fun _ => 0) demoServiceGroups).1).getD 0
        default).text = g.combinedText :=
  charCount_eq_text_length (fun _ => 0) demoServiceGroups _ (by decide)

/-- C9 counterexample: locator construction for a detached node with no id
does not default to an empty locator string — it throws a `TypeError`
(dereferencing `parentNode.childNodes` with a null parent). -/
theorem getXPath_detached_counterexample :
    getXPathJS (UpNode.detached "DIV" "") = Except.error typeErrorMsg ∧
    getXPathJS (UpNode.detached "DIV" "") ≠ Except.ok "" := by
  refine ⟨rfl, ?_⟩
  intro h
  exact Except.noConfusion h

/-- C9 amended: locator construction for a detached, id-less node throws a
`TypeError` rather than defaulting to an empty string; the error aborts the
in-page extraction, but the entry point's top-level catch records it and
the call still returns a results object (with no sections). -/
theorem getXPath_detached_amended :
    (∀ tag : String, getXPathJS (UpNode.detached tag "") =
      Except.error typeErrorMsg) ∧
    (∀ (cnt : Counters) (url t : String) (e : ErrRec),
      (scrapeWebsite cnt url (.evalFail t e)).1.errors = [e] ∧
      (scrapeWebsite cnt url (.evalFail t e)).1.sections = []) :=
  ⟨fun _ => rfl, fun _ _ _ _ => ⟨rfl, rfl⟩⟩

/-- C10: on a page whose paragraph is followed by a label-less button, the
button associator finds the unconsumed button, its normalized text is
empty, and the produced section carries `hasButton = true` with a null
`buttonText` at the public interface. -/
theorem section_hasButton_null_buttonText :
    ((scrapeWebsite (fun _ => 0) "https://example.test"
        (.ok "t" demoBtnDoc)).1.sections.map
      fun s => (s.hasButton, s.buttonText)) = [(true, none)] := by
  decide

end JRS
